import Mathlib

/-!
Shallow embedding of the security_monkey watchers
`security_monkey/watchers/iam/iam_user.py` and
`security_monkey/watchers/sns.py`.

Python computations that may raise are modelled as `Except PyExc`.
`while True` pagination loops are modelled with an explicit fuel
parameter (`Option` result, `none` = the loop did not finish within
the given fuel, i.e. it does not terminate for any bound).
Collaborators (boto connections, `json.loads`, `urllib.unquote`, the
ignore list) are injected as record fields, mirroring how the watchers
receive them.  The parts of the repository that the watcher files use
but that are not among the provided sources (`security_monkey.watcher`:
the rate-limit wrapper, the exception recorder, the ignore-list check)
are modelled from the spec and marked as such.
-/

set_option autoImplicit false

namespace SecurityMonkey

/-- Python exception values that the embedded code can raise or record. -/
inductive PyExc where
  | invalidAWSJSON (doc : String)
  | botoConnectionIssue (msg : String)
  | unboundLocalError (name : String)
  | keyError (key : String)
  | typeError (msg : String)
  | attributeError (name : String)
  | rateLimitExhausted
  | generic (msg : String)
deriving DecidableEq, Repr

/-- Python `str(e)` applied to an exception value. -/
def pyStr : PyExc → String
  | .invalidAWSJSON doc => "InvalidAWSJSON " ++ doc
  | .botoConnectionIssue msg => "BotoConnectionIssue " ++ msg
  | .unboundLocalError name => "UnboundLocalError " ++ name
  | .keyError key => "KeyError " ++ key
  | .typeError msg => "TypeError " ++ msg
  | .attributeError name => "AttributeError " ++ name
  | .rateLimitExhausted => "RateLimitExhausted"
  | .generic msg => msg

/-- JSON-like values: the payloads decoded by `json.loads` and the
contents of boto records (`dict(user)`, `dict(key)`, ...). -/
inductive Json where
  | str (s : String)
  | num (n : Int)
  | bool (b : Bool)
  | null
  | arr (elems : List Json)
  | obj (fields : List (String × Json))
deriving Repr

/-- Association-list lookup, the model of Python `d[k]` / `d.get(k)`
on a string-keyed dict. -/
def alook {α : Type} : List (String × α) → String → Option α
  | [], _ => none
  | (k, v) :: rest, q => if k = q then some v else alook rest q

/-- Association-list update, the model of Python `d[k] = v`:
overwrites in place if the key is present, appends otherwise. -/
def upsert {α : Type} : List (String × α) → String → α → List (String × α)
  | [], k, v => [(k, v)]
  | (k', v') :: rest, k, v =>
    if k' = k then (k, v) :: rest else (k', v') :: upsert rest k v

/-- Removal of a key, the model of a successful Python `del d[k]`. -/
def eraseKey {α : Type} : List (String × α) → String → List (String × α)
  | [], _ => []
  | (k', v') :: rest, k => if k' = k then rest else (k', v') :: eraseKey rest k

/-- Python `del d[k]`: raises `KeyError` when the key is absent. -/
def delKey (m : List (String × Json)) (k : String) :
    Except PyExc (List (String × Json)) :=
  match alook m k with
  | some _ => .ok (eraseKey m k)
  | none => .error (.keyError k)

/-- One Python pair-like element accepted by `dict(...)`:
a two-element sequence whose first component is a string key. -/
def pyPair : Json → Option (String × Json)
  | Json.arr [Json.str k, v] => some (k, v)
  | Json.str s => if s.length = 2 then some (s.take 1, Json.str (s.drop 1)) else none
  | _ => none

/-- All elements of a list viewed as pairs, or `none` if any element
is not pair-like. -/
def pyPairs : List Json → Option (List (String × Json))
  | [] => some []
  | x :: rest =>
    match pyPair x, pyPairs rest with
    | some p, some r => some (p :: r)
    | _, _ => none

/-- Python `dict(x)`: copies a dict, folds an iterable of pairs,
and raises `TypeError`/`ValueError` on anything else. -/
def pyDict : Json → Except PyExc (List (String × Json))
  | Json.obj fs => .ok fs
  | Json.arr l =>
    match pyPairs l with
    | some ps => .ok (ps.foldl (fun d p => upsert d p.1 p.2) [])
    | none => .error (.typeError "cannot convert to dict")
  | _ => .error (.typeError "cannot convert to dict")

/-- Location key of a recorded exception: `(index, account, region)` with
an optional trailing resource identity, mirroring the 3- and 4-tuples
used by the watchers. -/
structure LocKey where
  index : String
  account : String
  region : String
  resource : Option String
deriving DecidableEq, Repr

/-- The scan-scoped exception map: location key to exception. -/
abbrev ExcMap := List (LocKey × PyExc)

/-- Modelled from the spec: the `ExceptionRecorder` contract (§4.3) behind
`Watcher.slurp_exception` / `record_exception`, whose implementation in
`security_monkey/watcher.py` is not among the provided sources.  It
appends the error for a fresh location key and overwrites (last write
wins) for an existing one, and never raises. -/
def recordException (loc : LocKey) (e : PyExc) (m : ExcMap) : ExcMap :=
  match m with
  | [] => [(loc, e)]
  | (loc', e') :: rest =>
    if loc' = loc then (loc, e) :: rest else (loc', e') :: recordException loc e rest

/-- Outcome of one attempt of a remote call: success, a throttling
signal, or a non-throttling error. -/
inductive CallOutcome (α : Type) where
  | ok (a : α)
  | throttle
  | fail (e : PyExc)

/-- Modelled from the spec: the `RateLimitedCaller` contract (§4.2) behind
`Watcher.wrap_aws_rate_limited_call` / `boto_rate_limited`, whose
implementation in `security_monkey/watcher.py` is not among the provided
sources.  `attempts k` is the backend's response to the `k`-th attempt;
on a throttling signal the caller sleeps for an exponentially growing
duration with random jitter (`2 ^ k + jitter k`, collected in the second
component) and retries, up to `maxAttempts` attempts; a non-throttling
error propagates immediately; exhaustion surfaces as a connectivity
failure. -/
def rateLimitedGo {α : Type} (attempts : Nat → CallOutcome α) (jitter : Nat → Nat)
    (k : Nat) : Nat → Except PyExc α × List Nat
  | 0 => (.error .rateLimitExhausted, [])
  | n + 1 =>
    match attempts k with
    | .ok a => (.ok a, [])
    | .fail e => (.error e, [])
    | .throttle =>
      let d := 2 ^ k + jitter k
      let r := rateLimitedGo attempts jitter (k + 1) n
      (r.1, d :: r.2)

/-- Modelled from the spec: entry point of the rate-limited caller,
starting at attempt 0 with the full retry budget. -/
def rateLimitedCall {α : Type} (attempts : Nat → CallOutcome α) (jitter : Nat → Nat)
    (maxAttempts : Nat) : Except PyExc α × List Nat :=
  rateLimitedGo attempts jitter 0 maxAttempts

/-- A jitter source that always returns 0; used as the canonical
randomness source in jitter-irrelevance lemmas. -/
def jZero : Nat → Nat := fun _ => 0

/-! ### IAM user watcher data (`iam_user.py`) -/

/-- One boto IAM user record: its `user_name` and `arn` attributes and
the dict produced by `dict(user)`. -/
structure IamUser where
  userName : String
  arn : String
  asDict : List (String × Json)

/-- Response of `iam.get_all_users`: the page of users and the optional
`marker` attribute (`none` models `hasattr(response, 'marker')` being
false). -/
structure UsersResponse where
  users : List IamUser
  markerAttr : Option String

/-- Response of `iam.get_all_user_policies`: page of policy names, the
`is_truncated` string (compared against `'true'` by the source) and the
`marker` attribute. -/
structure PoliciesResponse where
  policyNames : List String
  isTruncated : String
  marker : Option String

/-- Response of `iam.get_user_policy`: the url-quoted policy document. -/
structure PolicyDocResponse where
  policyDocument : String

/-- One boto access-key record. -/
structure AccessKey where
  accessKeyId : String
  asDict : List (String × Json)

/-- Response of `iam.get_all_access_keys`. -/
structure KeysResponse where
  accessKeyMetadata : List AccessKey
  isTruncated : String
  marker : Option String

/-- One boto MFA-device record. -/
structure MfaDevice where
  serialNumber : String
  asDict : List (String × Json)

/-- Response of `iam.get_all_mfa_devices`. -/
structure MfasResponse where
  mfaDevices : List MfaDevice
  isTruncated : String
  marker : Option String

/-- One boto signing-certificate record; `asDict` is `dict(cert)` and
normally contains the `certificate_body` key. -/
structure SigningCert where
  certificateId : String
  asDict : List (String × Json)

/-- Response of `iam.get_all_signing_certs`. -/
structure CertsResponse where
  certificates : List SigningCert
  isTruncated : String
  marker : Option String

/-- Response of `iam.get_login_profiles`: the `login_profile` attribute
as a dict. -/
structure LoginProfileResponse where
  loginProfile : List (String × Json)

/-- One boto3 managed policy together with the arns of its attached
users, as iterated by `all_managed_policies`. -/
structure Boto3Policy where
  policyName : String
  arn : String
  defaultVersionId : String
  attachedUserArns : List String

/-- The observable behavior of the boto IAM connection returned by
`connect(account, 'iam')`.  Every remote operation is an
attempt-indexed stream of outcomes (the last `Nat` argument is the
attempt number used by the rate-limited caller). -/
structure IamConn where
  getAllUsers : Option String → Nat → CallOutcome UsersResponse
  getAllUserPolicies : String → Option String → Nat → CallOutcome PoliciesResponse
  getUserPolicy : String → String → Nat → CallOutcome PolicyDocResponse
  getAllAccessKeys : String → Option String → Nat → CallOutcome KeysResponse
  getAllMfaDevices : String → Option String → Nat → CallOutcome MfasResponse
  getLoginProfiles : String → Nat → CallOutcome LoginProfileResponse
  getAllSigningCerts : String → Option String → Nat → CallOutcome CertsResponse

/-- The collaborators of `IAMUser.slurp`: the two `connect` calls, the
standard library (`json.loads`, `urllib.unquote`), the ignore-list
predicate (`Watcher.check_ignore_list`, modelled from the spec's
`ScopeFilter` contract §4.4 since `security_monkey/watcher.py` is not
among the provided sources) and the retry budget of the rate-limited
caller. -/
structure IamBackend where
  connectBoto3 : String → Except PyExc (List Boto3Policy)
  connectIam : String → Except PyExc IamConn
  jsonLoads : String → Except PyExc Json
  urlUnquote : String → String
  checkIgnoreList : String → Bool
  maxAttempts : Nat

/-- Tags of the remote detail/listing calls issued by `IAMUser.slurp`,
collected so that theorems can speak about which calls were made. -/
inductive CallTag where
  | getAllUsers (marker : Option String)
  | getAllUserPolicies (user : String) (marker : Option String)
  | getUserPolicy (user : String) (policyName : String)
  | getAllAccessKeys (user : String) (marker : Option String)
  | getAllMfaDevices (user : String) (marker : Option String)
  | getLoginProfiles (user : String)
  | getAllSigningCerts (user : String) (marker : Option String)
deriving DecidableEq, Repr

/-- The resource identity a call is about (`none` for the top-level
user listing). -/
def CallTag.target : CallTag → Option String
  | .getAllUsers _ => none
  | .getAllUserPolicies u _ => some u
  | .getUserPolicy u _ => some u
  | .getAllAccessKeys u _ => some u
  | .getAllMfaDevices u _ => some u
  | .getLoginProfiles u => some u
  | .getAllSigningCerts u _ => some u

/-- The dict `{"name": ..., "arn": ..., "version": ...}` built by
`all_managed_policies` for one managed policy. -/
def managedPolicyJson (p : Boto3Policy) : Json :=
  Json.obj [("name", Json.str p.policyName), ("arn", Json.str p.arn),
            ("version", Json.str p.defaultVersionId)]

/-- `managed_policies[arn] = [policy]` / `managed_policies[arn].append(policy)`
from `all_managed_policies`. -/
def mpInsert (mp : List (String × List Json)) (arn : String) (pj : Json) :
    List (String × List Json) :=
  match mp with
  | [] => [(arn, [pj])]
  | (a, l) :: rest =>
    if a = arn then (a, l ++ [pj]) :: rest else (a, l) :: mpInsert rest arn pj

/-- Inner loop of `all_managed_policies` over the attached users of one
policy.  The source rebinds the loop variable `policy` to the built dict
inside the loop body, so from the second attached user on the attribute
access `policy.policy_name` is performed on a dict and raises
`AttributeError`; the `Sum` argument tracks that rebinding. -/
def ampAttachedLoop (pv : Boto3Policy ⊕ Json) (users : List String)
    (mp : List (String × List Json)) : Except PyExc (List (String × List Json)) :=
  match users with
  | [] => .ok mp
  | u :: rest =>
    match pv with
    | .inl p => ampAttachedLoop (.inr (managedPolicyJson p)) rest (mpInsert mp u (managedPolicyJson p))
    | .inr _ => .error (.attributeError "policy_name")

/-- Outer loop of `all_managed_policies` over `conn.policies.all()`. -/
def ampPoliciesLoop : List Boto3Policy → List (String × List Json) →
    Except PyExc (List (String × List Json))
  | [], mp => .ok mp
  | p :: rest, mp =>
    match ampAttachedLoop (.inl p) p.attachedUserArns mp with
    | .error e => .error e
    | .ok mp2 => ampPoliciesLoop rest mp2

/-- `all_managed_policies(conn)` (iam_user.py lines 33-49). -/
def allManagedPolicies (policies : List Boto3Policy) :
    Except PyExc (List (String × List Json)) :=
  ampPoliciesLoop policies []

/-- The `get_all_users` pagination loop of `IAMUser.slurp`
(lines 143-157): extend, then continue while the response has a
`marker` attribute. -/
def getAllUsersLoop (conn : IamConn) (j : Nat → Nat) (maxA : Nat)
    (marker : Option String) (acc : List IamUser) :
    Nat → Option (Except PyExc (List IamUser) × List CallTag)
  | 0 => none
  | fuel + 1 =>
    match (rateLimitedCall (conn.getAllUsers marker) j maxA).1 with
    | .error e => some (.error e, [CallTag.getAllUsers marker])
    | .ok resp =>
      match resp.markerAttr with
      | some m =>
        match getAllUsersLoop conn j maxA (some m) (acc ++ resp.users) fuel with
        | none => none
        | some (r, log) => some (r, CallTag.getAllUsers marker :: log)
      | none => some (.ok (acc ++ resp.users), [CallTag.getAllUsers marker])

/-- The pagination loop of `IAMUser.policy_names_for_user`
(lines 60-74): extend, then continue while `is_truncated == 'true'`. -/
def policyNamesLoop (conn : IamConn) (j : Nat → Nat) (maxA : Nat) (uname : String)
    (marker : Option String) (acc : List String) :
    Nat → Option (Except PyExc (List String) × List CallTag)
  | 0 => none
  | fuel + 1 =>
    match (rateLimitedCall (conn.getAllUserPolicies uname marker) j maxA).1 with
    | .error e => some (.error e, [CallTag.getAllUserPolicies uname marker])
    | .ok resp =>
      if resp.isTruncated = "true" then
        match policyNamesLoop conn j maxA uname resp.marker (acc ++ resp.policyNames) fuel with
        | none => none
        | some (r, log) => some (r, CallTag.getAllUserPolicies uname marker :: log)
      else some (.ok (acc ++ resp.policyNames), [CallTag.getAllUserPolicies uname marker])

/-- `IAMUser.policy_names_for_user(conn, user)`. -/
def policyNamesForUser (conn : IamConn) (j : Nat → Nat) (maxA : Nat)
    (uname : String) (fuel : Nat) :
    Option (Except PyExc (List String) × List CallTag) :=
  policyNamesLoop conn j maxA uname none [] fuel

/-- The pagination loop of `IAMUser.access_keys_for_user` (lines 76-90). -/
def accessKeysLoop (conn : IamConn) (j : Nat → Nat) (maxA : Nat) (uname : String)
    (marker : Option String) (acc : List AccessKey) :
    Nat → Option (Except PyExc (List AccessKey) × List CallTag)
  | 0 => none
  | fuel + 1 =>
    match (rateLimitedCall (conn.getAllAccessKeys uname marker) j maxA).1 with
    | .error e => some (.error e, [CallTag.getAllAccessKeys uname marker])
    | .ok resp =>
      if resp.isTruncated = "true" then
        match accessKeysLoop conn j maxA uname resp.marker (acc ++ resp.accessKeyMetadata) fuel with
        | none => none
        | some (r, log) => some (r, CallTag.getAllAccessKeys uname marker :: log)
      else some (.ok (acc ++ resp.accessKeyMetadata), [CallTag.getAllAccessKeys uname marker])

/-- `IAMUser.access_keys_for_user(conn, user)`. -/
def accessKeysForUser (conn : IamConn) (j : Nat → Nat) (maxA : Nat)
    (uname : String) (fuel : Nat) :
    Option (Except PyExc (List AccessKey) × List CallTag) :=
  accessKeysLoop conn j maxA uname none [] fuel

/-- The pagination loop of `IAMUser.mfas_for_user` (lines 92-106). -/
def mfasLoop (conn : IamConn) (j : Nat → Nat) (maxA : Nat) (uname : String)
    (marker : Option String) (acc : List MfaDevice) :
    Nat → Option (Except PyExc (List MfaDevice) × List CallTag)
  | 0 => none
  | fuel + 1 =>
    match (rateLimitedCall (conn.getAllMfaDevices uname marker) j maxA).1 with
    | .error e => some (.error e, [CallTag.getAllMfaDevices uname marker])
    | .ok resp =>
      if resp.isTruncated = "true" then
        match mfasLoop conn j maxA uname resp.marker (acc ++ resp.mfaDevices) fuel with
        | none => none
        | some (r, log) => some (r, CallTag.getAllMfaDevices uname marker :: log)
      else some (.ok (acc ++ resp.mfaDevices), [CallTag.getAllMfaDevices uname marker])

/-- `IAMUser.mfas_for_user(conn, user)`. -/
def mfasForUser (conn : IamConn) (j : Nat → Nat) (maxA : Nat)
    (uname : String) (fuel : Nat) :
    Option (Except PyExc (List MfaDevice) × List CallTag) :=
  mfasLoop conn j maxA uname none [] fuel

/-- The pagination loop of `IAMUser.certificates_for_user` (lines 108-122). -/
def certsFetchLoop (conn : IamConn) (j : Nat → Nat) (maxA : Nat) (uname : String)
    (marker : Option String) (acc : List SigningCert) :
    Nat → Option (Except PyExc (List SigningCert) × List CallTag)
  | 0 => none
  | fuel + 1 =>
    match (rateLimitedCall (conn.getAllSigningCerts uname marker) j maxA).1 with
    | .error e => some (.error e, [CallTag.getAllSigningCerts uname marker])
    | .ok resp =>
      if resp.isTruncated = "true" then
        match certsFetchLoop conn j maxA uname resp.marker (acc ++ resp.certificates) fuel with
        | none => none
        | some (r, log) => some (r, CallTag.getAllSigningCerts uname marker :: log)
      else some (.ok (acc ++ resp.certificates), [CallTag.getAllSigningCerts uname marker])

/-- `IAMUser.certificates_for_user(conn, user)`. -/
def certificatesForUser (conn : IamConn) (j : Nat → Nat) (maxA : Nat)
    (uname : String) (fuel : Nat) :
    Option (Except PyExc (List SigningCert) × List CallTag) :=
  certsFetchLoop conn j maxA uname none [] fuel

/-- The per-policy loop of `IAMUser.slurp` (lines 185-199).  `stale` is
the function-scoped local `policydict`: it starts unbound (`none`) and
keeps its previous value across iterations.  On a `json.loads` failure
the source records `InvalidAWSJSON` and then still executes
`item_config['userpolicies'][policy_name] = dict(policydict)`, which
raises `UnboundLocalError` when `policydict` was never assigned and
otherwise stores the previous, stale document. -/
def userPoliciesLoop (b : IamBackend) (conn : IamConn) (j : Nat → Nat)
    (account uname : String) (names : List String)
    (upol : List (String × Json)) (stale : Option Json) (em : ExcMap) :
    Except PyExc (List (String × Json) × Option Json × ExcMap) × List CallTag :=
  match names with
  | [] => (.ok (upol, stale, em), [])
  | pn :: rest =>
    match (rateLimitedCall (conn.getUserPolicy uname pn) j b.maxAttempts).1 with
    | .error e => (.error e, [CallTag.getUserPolicy uname pn])
    | .ok docResp =>
      let policy := b.urlUnquote docResp.policyDocument
      let sem :=
        match b.jsonLoads policy with
        | .ok d => (some d, em)
        | .error _ =>
          (stale, recordException ⟨"iamuser", account, "universal", some uname⟩
            (.invalidAWSJSON policy) em)
      match sem.1 with
      | none => (.error (.unboundLocalError "policydict"), [CallTag.getUserPolicy uname pn])
      | some pd =>
        match pyDict pd with
        | .error e => (.error e, [CallTag.getUserPolicy uname pn])
        | .ok fields =>
          let r := userPoliciesLoop b conn j account uname rest
            (upsert upol pn (Json.obj fields)) sem.1 sem.2
          (r.1, CallTag.getUserPolicy uname pn :: r.2)

/-- The signing-certificates loop of `IAMUser.slurp` (lines 228-231):
`_cert = dict(cert); del _cert['certificate_body']`, then store the
copy under the certificate id. -/
def certsLoop : List SigningCert → List (String × Json) →
    Except PyExc (List (String × Json))
  | [], d => .ok d
  | c :: rest, d =>
    match delKey c.asDict "certificate_body" with
    | .error e => .error e
    | .ok cd => certsLoop rest (upsert d c.certificateId (Json.obj cd))

/-- The access-keys dict built at lines 204-205. -/
def keysDict (ks : List AccessKey) : List (String × Json) :=
  ks.foldl (fun d k => upsert d k.accessKeyId (Json.obj k.asDict)) []

/-- The MFA-devices dict built at lines 210-211. -/
def mfasDict (ms : List MfaDevice) : List (String × Json) :=
  ms.foldl (fun d m => upsert d m.serialNumber (Json.obj m.asDict)) []

/-- An emitted `ChangeItem`: `IAMUserItem` fixes `index = 'iamuser'` and
`region = 'universal'` (iam_user.py lines 240-247). -/
structure IamItem where
  index : String
  region : String
  account : String
  name : String
  config : List (String × Json)

/-- The body of `for user in all_users` in `IAMUser.slurp` for one
non-ignored user (lines 169-235): assembles `item_config` and the
resulting `IAMUserItem`, threading the function-scoped `policydict`
(`stale`) and the exception map, and collecting the detail calls
issued. -/
def processUser (b : IamBackend) (conn : IamConn) (j : Nat → Nat) (account : String)
    (mp : List (String × List Json)) (user : IamUser) (stale : Option Json)
    (em : ExcMap) (fuel : Nat) :
    Option (Except PyExc (IamItem × Option Json × ExcMap) × List CallTag) :=
  match policyNamesForUser conn j b.maxAttempts user.userName fuel with
  | none => none
  | some (.error e, log1) => some (.error e, log1)
  | some (.ok policyNames, log1) =>
    match userPoliciesLoop b conn j account user.userName policyNames [] stale em with
    | (.error e, log2) => some (.error e, log1 ++ log2)
    | (.ok (upol, stale2, em2), log2) =>
      match accessKeysForUser conn j b.maxAttempts user.userName fuel with
      | none => none
      | some (.error e, log3) => some (.error e, log1 ++ log2 ++ log3)
      | some (.ok keys, log3) =>
        match mfasForUser conn j b.maxAttempts user.userName fuel with
        | none => none
        | some (.error e, log4) => some (.error e, log1 ++ log2 ++ log3 ++ log4)
        | some (.ok mfas, log4) =>
          let loginField :=
            match (rateLimitedCall (conn.getLoginProfiles user.userName) j b.maxAttempts).1 with
            | .ok resp => some resp.loginProfile
            | .error _ => none
          match certificatesForUser conn j b.maxAttempts user.userName fuel with
          | none => none
          | some (.error e, log6) =>
            some (.error e, log1 ++ log2 ++ log3 ++ log4 ++
              [CallTag.getLoginProfiles user.userName] ++ log6)
          | some (.ok certs, log6) =>
            match certsLoop certs [] with
            | .error e =>
              some (.error e, log1 ++ log2 ++ log3 ++ log4 ++
                [CallTag.getLoginProfiles user.userName] ++ log6)
            | .ok certsD =>
              let cfg : List (String × Json) :=
                [("user", Json.obj user.asDict), ("userpolicies", Json.obj upol),
                 ("accesskeys", Json.obj (keysDict keys)),
                 ("mfadevices", Json.obj (mfasDict mfas)),
                 ("signingcerts", Json.obj certsD)]
              let cfg :=
                match alook mp user.arn with
                | some l => cfg ++ [("managed_policies", Json.arr l)]
                | none => cfg
              let cfg :=
                match loginField with
                | some lp => cfg ++ [("loginprofile", Json.obj lp)]
                | none => cfg
              some (.ok (⟨"iamuser", "universal", account, user.userName, cfg⟩, stale2, em2),
                log1 ++ log2 ++ log3 ++ log4 ++
                  [CallTag.getLoginProfiles user.userName] ++ log6)

/-- The `for user in all_users` loop of `IAMUser.slurp` (lines 164-235):
skips ignored users before any detail fetch, appends one item per
processed user. -/
def usersLoop (b : IamBackend) (conn : IamConn) (j : Nat → Nat) (account : String)
    (mp : List (String × List Json)) (users : List IamUser) (stale : Option Json)
    (items : List IamItem) (em : ExcMap) (fuel : Nat) :
    Option (Except PyExc (List IamItem × Option Json × ExcMap) × List CallTag) :=
  match users with
  | [] => some (.ok (items, stale, em), [])
  | u :: rest =>
    if b.checkIgnoreList u.userName then
      usersLoop b conn j account mp rest stale items em fuel
    else
      match processUser b conn j account mp u stale em fuel with
      | none => none
      | some (.error e, log) => some (.error e, log)
      | some (.ok (item, stale2, em2), log) =>
        match usersLoop b conn j account mp rest stale2 (items ++ [item]) em2 fuel with
        | none => none
        | some (r, log2) => some (r, log ++ log2)

/-- The `try` block of `IAMUser.slurp` for one account (lines 138-157):
both connects, `all_managed_policies`, and the user listing loop. -/
def connectPhase (b : IamBackend) (j : Nat → Nat) (account : String) (fuel : Nat) :
    Option (Except PyExc (IamConn × List (String × List Json) × List IamUser) × List CallTag) :=
  match b.connectBoto3 account with
  | .error e => some (.error e, [])
  | .ok policies =>
    match allManagedPolicies policies with
    | .error e => some (.error e, [])
    | .ok mp =>
      match b.connectIam account with
      | .error e => some (.error e, [])
      | .ok conn =>
        match getAllUsersLoop conn j b.maxAttempts none [] fuel with
        | none => none
        | some (.error e, log) => some (.error e, log)
        | some (.ok users, log) => some (.ok (conn, mp, users), log)

/-- The `for account in self.accounts` loop of `IAMUser.slurp`
(lines 135-235): a connect-phase failure is recorded as a
`BotoConnectionIssue` at `(index, account, 'universal')` and the scan
continues with the next account; an exception from the per-user loop is
not caught and aborts the whole call. -/
def accountsLoop (b : IamBackend) (j : Nat → Nat) (accounts : List String)
    (stale : Option Json) (items : List IamItem) (em : ExcMap) (fuel : Nat) :
    Option (Except PyExc (List IamItem × ExcMap) × List CallTag) :=
  match accounts with
  | [] => some (.ok (items, em), [])
  | a :: rest =>
    match connectPhase b j a fuel with
    | none => none
    | some (.error e, log) =>
      match accountsLoop b j rest stale items
          (recordException ⟨"iamuser", a, "universal", none⟩
            (.botoConnectionIssue (pyStr e)) em) fuel with
      | none => none
      | some (r, log2) => some (r, log ++ log2)
    | some (.ok (conn, mp, users), log) =>
      match usersLoop b conn j a mp users stale items em fuel with
      | none => none
      | some (.error e, log2) => some (.error e, log ++ log2)
      | some (.ok (items2, stale2, em2), log2) =>
        match accountsLoop b j rest stale2 items2 em2 fuel with
        | none => none
        | some (r, log3) => some (r, log ++ log2 ++ log3)

/-- `IAMUser.slurp()` (iam_user.py lines 124-237) over the injected
collaborators, the configured account list, a jitter source for the
rate-limited caller, and a fuel bound for the `while True` pagination
loops.  Returns `none` when some pagination loop exceeds the fuel,
otherwise the Python outcome: either an uncaught exception or the
`(item_list, exception_map)` pair, together with the list of issued
remote calls. -/
def slurpIamUser (b : IamBackend) (accounts : List String) (j : Nat → Nat)
    (fuel : Nat) : Option (Except PyExc (List IamItem × ExcMap) × List CallTag) :=
  accountsLoop b j accounts none [] [] fuel

/-! ### SNS watcher pagination (`sns.py`) -/

/-- The inner result of `get_all_subscriptions_by_topic`: the
subscription page and the `NextToken` field. -/
structure SubsResponse where
  subscriptions : List Json
  nextToken : Option String

/-- The inner result of `get_all_topics`: the topic page and the
`NextToken` field. -/
structure TopicsResponse where
  topics : List Json
  nextToken : Option String

/-- The observable behavior of the boto SNS connection used by the
pagination helpers of `sns.py`. -/
structure SnsConn where
  getAllSubscriptionsByTopic : String → Option String → Nat → CallOutcome SubsResponse
  getAllTopics : Option String → Nat → CallOutcome TopicsResponse

/-- The pagination loop of `_get_topic_subscriptions` (sns.py lines
92-105), next-token convention: extend, reassign the token, and break
only when the token `is None`. -/
def topicSubsLoop (conn : SnsConn) (j : Nat → Nat) (maxA : Nat) (arn : String)
    (token : Option String) (acc : List Json) :
    Nat → Option (Except PyExc (List Json))
  | 0 => none
  | fuel + 1 =>
    match (rateLimitedCall (conn.getAllSubscriptionsByTopic arn token) j maxA).1 with
    | .error e => some (.error e)
    | .ok resp =>
      match resp.nextToken with
      | none => some (.ok (acc ++ resp.subscriptions))
      | some t => topicSubsLoop conn j maxA arn (some t) (acc ++ resp.subscriptions) fuel

/-- `_get_topic_subscriptions(conn, arn)`. -/
def getTopicSubscriptions (conn : SnsConn) (j : Nat → Nat) (maxA : Nat)
    (arn : String) (fuel : Nat) : Option (Except PyExc (List Json)) :=
  topicSubsLoop conn j maxA arn none [] fuel

/-- Python truthiness of the `NextToken` field: `None` and the empty
string are falsy. -/
def truthy : Option String → Bool
  | none => false
  | some s => s ≠ ""

/-- The pagination loop of `get_all_topics_in_region` (sns.py lines
146-154), truthiness convention: extend, and continue with the token as
marker iff the `NextToken` field is truthy. -/
def allTopicsLoop (conn : SnsConn) (j : Nat → Nat) (maxA : Nat)
    (marker : Option String) (acc : List Json) :
    Nat → Option (Except PyExc (List Json))
  | 0 => none
  | fuel + 1 =>
    match (rateLimitedCall (conn.getAllTopics marker) j maxA).1 with
    | .error e => some (.error e)
    | .ok resp =>
      if truthy resp.nextToken then
        allTopicsLoop conn j maxA resp.nextToken (acc ++ resp.topics) fuel
      else some (.ok (acc ++ resp.topics))

/-- The topic-listing part of `get_all_topics_in_region(account, region)`. -/
def getAllTopicsInRegion (conn : SnsConn) (j : Nat → Nat) (maxA : Nat)
    (fuel : Nat) : Option (Except PyExc (List Json)) :=
  allTopicsLoop conn j maxA none [] fuel

/-! ### Backends used by the theorems -/

/-- A connection whose every operation fails; base for concrete
connections that exercise only some operations. -/
def dummyIamConn : IamConn where
  getAllUsers := fun _ _ => .fail (.generic "unused")
  getAllUserPolicies := fun _ _ _ => .fail (.generic "unused")
  getUserPolicy := fun _ _ _ => .fail (.generic "unused")
  getAllAccessKeys := fun _ _ _ => .fail (.generic "unused")
  getAllMfaDevices := fun _ _ _ => .fail (.generic "unused")
  getLoginProfiles := fun _ _ => .fail (.generic "unused")
  getAllSigningCerts := fun _ _ _ => .fail (.generic "unused")

/-- An opaque page cursor: the page index encoded as a string token
(non-empty for every index ≥ 1). -/
def utok (i : Nat) : String := String.mk (List.replicate i 'x')

/-- Decodes a cursor back to a page index (`none`, the initial cursor,
is page 0). -/
def midx : Option String → Nat
  | none => 0
  | some s => s.length

/-- A backend realizing an arbitrary finite page sequence under the
truncation-flag convention of `get_all_user_policies`: page `i` carries
`is_truncated = 'true'` exactly when it is not the last page, together
with a marker for page `i+1`. -/
def chainPoliciesConn (pages : List (List String)) : IamConn :=
  { dummyIamConn with
    getAllUserPolicies := fun _ mk _ => .ok
      ⟨pages.getD (midx mk) [],
       if midx mk + 1 < pages.length then "true" else "false",
       some (utok (midx mk + 1))⟩ }

/-- A backend realizing an arbitrary finite page sequence under the
next-token convention of `get_all_subscriptions_by_topic`: page `i`
carries a token for page `i+1` exactly when it is not the last page. -/
def chainSubsConn (pages : List (List Json)) : SnsConn where
  getAllSubscriptionsByTopic := fun _ tk _ => .ok
    ⟨pages.getD (midx tk) [],
     if midx tk + 1 < pages.length then some (utok (midx tk + 1)) else none⟩
  getAllTopics := fun _ _ => .fail (.generic "unused")

/-- A backend realizing an arbitrary finite page sequence under the
truthiness convention of `get_all_topics`. -/
def chainTopicsConn (pages : List (List Json)) : SnsConn where
  getAllSubscriptionsByTopic := fun _ _ _ => .fail (.generic "unused")
  getAllTopics := fun tk _ => .ok
    ⟨pages.getD (midx tk) [],
     if midx tk + 1 < pages.length then some (utok (midx tk + 1)) else none⟩

/-- Divergence of the subscription pagination loop: no fuel bound makes
it finish. -/
def topicSubsLoopDiverges (conn : SnsConn) (j : Nat → Nat) (maxA : Nat)
    (arn : String) : Prop :=
  ∀ (fuel : Nat) (token : Option String) (acc : List Json),
    topicSubsLoop conn j maxA arn token acc fuel = none

/-- Divergence of the user-listing pagination loop: no fuel bound makes
it finish. -/
def getAllUsersLoopDiverges (conn : IamConn) (j : Nat → Nat) (maxA : Nat) : Prop :=
  ∀ (fuel : Nat) (marker : Option String) (acc : List IamUser),
    getAllUsersLoop conn j maxA marker acc fuel = none

/-- A backend whose subscription listing always returns an empty page
together with a non-empty next token. -/
def emptyPageSubsConn : SnsConn where
  getAllSubscriptionsByTopic := fun _ _ _ => .ok ⟨[], some "x"⟩
  getAllTopics := fun _ _ => .fail (.generic "unused")

/-- A second such backend, used to exercise the general statement. -/
def emptyPageSubsConn2 : SnsConn where
  getAllSubscriptionsByTopic := fun _ _ _ => .ok ⟨[], some "more"⟩
  getAllTopics := fun _ _ => .fail (.generic "unused")

/-- A backend whose user listing always returns an empty page whose
response keeps carrying a `marker` attribute. -/
def emptyPageUsersConn : IamConn :=
  { dummyIamConn with getAllUsers := fun _ _ => .ok ⟨[], some "y"⟩ }

/-- A connection over which every per-user detail fetch succeeds with a
single page: no inline policies, keys, MFA devices or certificates, and
a login profile `lp`; the user listing returns `us` in one page. -/
def c3Conn (us : List IamUser) (lp : List (String × Json)) : IamConn where
  getAllUsers := fun _ _ => .ok ⟨us, none⟩
  getAllUserPolicies := fun _ _ _ => .ok ⟨[], "false", none⟩
  getUserPolicy := fun _ _ _ => .fail (.generic "unused")
  getAllAccessKeys := fun _ _ _ => .ok ⟨[], "false", none⟩
  getAllMfaDevices := fun _ _ _ => .ok ⟨[], "false", none⟩
  getLoginProfiles := fun _ _ => .ok ⟨lp⟩
  getAllSigningCerts := fun _ _ _ => .ok ⟨[], "false", none⟩

/-- A backend on which `connect` raises for the account `failing` and
succeeds (with `c3Conn us lp`) for every other account. -/
def c3Backend (failing : String) (us : List IamUser) (lp : List (String × Json)) :
    IamBackend where
  connectBoto3 := fun a =>
    if a = failing then .error (.generic "could not connect") else .ok []
  connectIam := fun _ => .ok (c3Conn us lp)
  jsonLoads := fun _ => .error (.generic "unused")
  urlUnquote := id
  checkIgnoreList := fun _ => false
  maxAttempts := 1

/-- The `ChangeItem` that `IAMUser.slurp` emits for user `u` of
`account` against `c3Conn`. -/
def c3ExpectedItem (account : String) (lp : List (String × Json)) (u : IamUser) : IamItem :=
  ⟨"iamuser", "universal", account, u.userName,
   [("user", Json.obj u.asDict), ("userpolicies", Json.obj []),
    ("accesskeys", Json.obj []), ("mfadevices", Json.obj []),
    ("signingcerts", Json.obj []), ("loginprofile", Json.obj lp)]⟩

/-- One signing-certificate record given as its id, the certificate body
and the remaining fields; realizes an arbitrary certificate whose dict
contains the `certificate_body` key. -/
structure CertData where
  id : String
  body : Json
  rest : List (String × Json)

/-- The boto record for a `CertData`. -/
def mkCert (c : CertData) : SigningCert := ⟨c.id, ("certificate_body", c.body) :: c.rest⟩

/-- The `signingcerts` dict `IAMUser.slurp` builds from `cs`: every
record keeps its other fields and loses `certificate_body`. -/
def stripCerts (cs : List CertData) : List (String × Json) :=
  cs.foldl (fun d c => upsert d c.id (Json.obj c.rest)) []

/-- A connection for one user `u` whose optional login-profile fetch
fails (the profile is absent) while every other detail fetch succeeds:
no inline policies, access keys `ks`, MFA devices `ms`, signing
certificates `cs`. -/
def c7Conn (u : IamUser) (ks : List AccessKey) (ms : List MfaDevice)
    (cs : List CertData) : IamConn where
  getAllUsers := fun _ _ => .ok ⟨[u], none⟩
  getAllUserPolicies := fun _ _ _ => .ok ⟨[], "false", none⟩
  getUserPolicy := fun _ _ _ => .fail (.generic "unused")
  getAllAccessKeys := fun _ _ _ => .ok ⟨ks, "false", none⟩
  getAllMfaDevices := fun _ _ _ => .ok ⟨ms, "false", none⟩
  getLoginProfiles := fun _ _ => .fail (.generic "404 NoSuchEntity")
  getAllSigningCerts := fun _ _ _ => .ok ⟨List.map mkCert cs, "false", none⟩

/-- The backend wrapping `c7Conn`. -/
def c7Backend (u : IamUser) (ks : List AccessKey) (ms : List MfaDevice)
    (cs : List CertData) : IamBackend where
  connectBoto3 := fun _ => .ok []
  connectIam := fun _ => .ok (c7Conn u ks ms cs)
  jsonLoads := fun _ => .error (.generic "unused")
  urlUnquote := id
  checkIgnoreList := fun _ => false
  maxAttempts := 1

/-- The configuration `IAMUser.slurp` emits for `u` against `c7Conn`:
all other fields are present, `loginprofile` is not. -/
def c7Config (u : IamUser) (ks : List AccessKey) (ms : List MfaDevice)
    (cs : List CertData) : List (String × Json) :=
  [("user", Json.obj u.asDict), ("userpolicies", Json.obj []),
   ("accesskeys", Json.obj (keysDict ks)), ("mfadevices", Json.obj (mfasDict ms)),
   ("signingcerts", Json.obj (stripCerts cs))]

/-- The call log of an optional loop result (out-of-fuel yields none). -/
def logOf {α : Type} : Option (α × List CallTag) → List CallTag
  | none => []
  | some pr => pr.2

/-- A backend whose ignore list contains exactly the user name `evil`,
with two listed users `evil` and `good`. -/
def c6Backend : IamBackend where
  connectBoto3 := fun _ => .ok []
  connectIam := fun _ => .ok (c3Conn [⟨"evil", "arn:evil", []⟩, ⟨"good", "arn:good", []⟩] [])
  jsonLoads := fun _ => .error (.generic "unused")
  urlUnquote := id
  checkIgnoreList := fun n => n = "evil"
  maxAttempts := 1

/-- The identity tuple `(resourceTypeIndex, region, account, name)` of an
emitted item. -/
def identityKey (it : IamItem) : String × String × String × String :=
  (it.index, it.region, it.account, it.name)

/-- All identity tuples within one output list are pairwise distinct. -/
def identitiesUnique (items : List IamItem) : Prop :=
  items.Pairwise (fun a b => identityKey a ≠ identityKey b)

/-- A backend whose user listing returns the same user record twice. -/
def c8Backend : IamBackend where
  connectBoto3 := fun _ => .ok []
  connectIam := fun _ => .ok (c3Conn [⟨"bob", "arn:bob", []⟩, ⟨"bob", "arn:bob", []⟩] [])
  jsonLoads := fun _ => .error (.generic "unused")
  urlUnquote := id
  checkIgnoreList := fun _ => false
  maxAttempts := 1

/-- A backend whose user listing returns two distinct user names. -/
def c8DistinctBackend : IamBackend where
  connectBoto3 := fun _ => .ok []
  connectIam := fun _ => .ok (c3Conn [⟨"alice", "arn:alice", []⟩, ⟨"bob", "arn:bob", []⟩] [])
  jsonLoads := fun _ => .error (.generic "unused")
  urlUnquote := id
  checkIgnoreList := fun _ => false
  maxAttempts := 1

/-- No signing-certificate entry of a configuration carries the raw
certificate body: every record stored under the `signingcerts` key has
no `certificate_body` field. -/
def noCertBody (cfg : List (String × Json)) : Prop :=
  ∀ d, alook cfg "signingcerts" = some (Json.obj d) →
    ∀ p ∈ d, ∀ fs, p.2 = Json.obj fs → alook fs "certificate_body" = none

/-- Every certificate record any signing-certificate page of this
connection can return has duplicate-free keys — true of every record
that comes from a Python dict. -/
def connCertsNodup (conn : IamConn) : Prop :=
  ∀ u m k resp, conn.getAllSigningCerts u m k = .ok resp →
    ∀ c ∈ resp.certificates, (c.asDict.map Prod.fst).Nodup

/-- All connections the backend can hand out satisfy `connCertsNodup`. -/
def backendCertsNodup (b : IamBackend) : Prop :=
  ∀ a conn, b.connectIam a = .ok conn → connCertsNodup conn

/-- One account, one user `alice` with a single inline policy `p1` whose
document fails JSON decoding. -/
def badJsonConn : IamConn where
  getAllUsers := fun _ _ => .ok ⟨[⟨"alice", "arn:alice", [("user_name", Json.str "alice")]⟩], none⟩
  getAllUserPolicies := fun _ _ _ => .ok ⟨["p1"], "false", none⟩
  getUserPolicy := fun _ _ _ => .ok ⟨"notjson"⟩
  getAllAccessKeys := fun _ _ _ => .ok ⟨[], "false", none⟩
  getAllMfaDevices := fun _ _ _ => .ok ⟨[], "false", none⟩
  getLoginProfiles := fun _ _ => .fail (.generic "NoSuchEntity")
  getAllSigningCerts := fun _ _ _ => .ok ⟨[], "false", none⟩

/-- The backend wrapping `badJsonConn`; `json.loads` rejects the
document. -/
def badJsonBackend : IamBackend where
  connectBoto3 := fun _ => .ok []
  connectIam := fun _ => .ok badJsonConn
  jsonLoads := fun s => .error (.generic s)
  urlUnquote := id
  checkIgnoreList := fun _ => false
  maxAttempts := 1

/-- The decoded document of the valid policy `p1` in the stale-document
scenario. -/
def staleDoc : Json := Json.obj [("a", Json.str "1")]

/-- One user `alice` with two inline policies: `p1` decodes to
`staleDoc`, `p2`'s document is malformed. -/
def staleJsonConn : IamConn where
  getAllUsers := fun _ _ => .ok ⟨[⟨"alice", "arn:alice", [("user_name", Json.str "alice")]⟩], none⟩
  getAllUserPolicies := fun _ _ _ => .ok ⟨["p1", "p2"], "false", none⟩
  getUserPolicy := fun _ pn _ => .ok ⟨if pn = "p1" then "good" else "bad"⟩
  getAllAccessKeys := fun _ _ _ => .ok ⟨[], "false", none⟩
  getAllMfaDevices := fun _ _ _ => .ok ⟨[], "false", none⟩
  getLoginProfiles := fun _ _ => .fail (.generic "NoSuchEntity")
  getAllSigningCerts := fun _ _ _ => .ok ⟨[], "false", none⟩

/-- The backend wrapping `staleJsonConn`: `json.loads` accepts `good`
and rejects `bad`. -/
def staleJsonBackend : IamBackend where
  connectBoto3 := fun _ => .ok []
  connectIam := fun _ => .ok staleJsonConn
  jsonLoads := fun s => if s = "good" then .ok staleDoc else .error (.generic "bad json")
  urlUnquote := id
  checkIgnoreList := fun _ => false
  maxAttempts := 1

/-- The item `IAMUser.slurp` emits in the stale-document scenario: the
malformed policy `p2` is not omitted — it is populated with `p1`'s
document. -/
def staleJsonItem : IamItem :=
  ⟨"iamuser", "universal", "acct1", "alice",
    [("user", Json.obj [("user_name", Json.str "alice")]),
     ("userpolicies", Json.obj [("p1", staleDoc), ("p2", staleDoc)]),
     ("accesskeys", Json.obj []), ("mfadevices", Json.obj []),
     ("signingcerts", Json.obj [])]⟩

/-! ## Theorems -/

/-! ### Jitter irrelevance: the randomness source only influences sleep
durations, never the data returned. -/

theorem rateLimitedGo_fst {α : Type} (a : Nat → CallOutcome α) (j : Nat → Nat) :
    ∀ (n k : Nat), (rateLimitedGo a j k n).1 = (rateLimitedGo a jZero k n).1 := by
  intro n
  induction n with
  | zero => intro k; rfl
  | succ m ih =>
    intro k
    simp only [rateLimitedGo]
    cases a k with
    | ok x => rfl
    | fail e => rfl
    | throttle => simpa using ih (k + 1)

@[simp] theorem rateLimitedCall_fst {α : Type} (a : Nat → CallOutcome α) (j : Nat → Nat)
    (m : Nat) : (rateLimitedCall a j m).1 = (rateLimitedCall a jZero m).1 :=
  rateLimitedGo_fst a j m 0

@[simp] theorem getAllUsersLoop_jitter (conn : IamConn) (j : Nat → Nat) (maxA : Nat) :
    ∀ (fuel : Nat) (marker : Option String) (acc : List IamUser),
    getAllUsersLoop conn j maxA marker acc fuel =
      getAllUsersLoop conn jZero maxA marker acc fuel := by
  intro fuel
  induction fuel with
  | zero => intro marker acc; rfl
  | succ n ih =>
    intro marker acc
    simp only [getAllUsersLoop, rateLimitedCall_fst]
    cases hrc : (rateLimitedCall (conn.getAllUsers marker) jZero maxA).1 with
    | error e => rfl
    | ok resp =>
      dsimp only
      cases hm : resp.markerAttr with
      | some m => dsimp only; rw [ih]
      | none => rfl

@[simp] theorem policyNamesLoop_jitter (conn : IamConn) (j : Nat → Nat) (maxA : Nat)
    (uname : String) : ∀ (fuel : Nat) (marker : Option String) (acc : List String),
    policyNamesLoop conn j maxA uname marker acc fuel =
      policyNamesLoop conn jZero maxA uname marker acc fuel := by
  intro fuel
  induction fuel with
  | zero => intro marker acc; rfl
  | succ n ih =>
    intro marker acc
    simp only [policyNamesLoop, rateLimitedCall_fst]
    cases hrc : (rateLimitedCall (conn.getAllUserPolicies uname marker) jZero maxA).1 with
    | error e => rfl
    | ok resp =>
      dsimp only
      by_cases ht : resp.isTruncated = "true"
      · simp only [if_pos ht]; rw [ih]
      · simp only [if_neg ht]

@[simp] theorem accessKeysLoop_jitter (conn : IamConn) (j : Nat → Nat) (maxA : Nat)
    (uname : String) : ∀ (fuel : Nat) (marker : Option String) (acc : List AccessKey),
    accessKeysLoop conn j maxA uname marker acc fuel =
      accessKeysLoop conn jZero maxA uname marker acc fuel := by
  intro fuel
  induction fuel with
  | zero => intro marker acc; rfl
  | succ n ih =>
    intro marker acc
    simp only [accessKeysLoop, rateLimitedCall_fst]
    cases hrc : (rateLimitedCall (conn.getAllAccessKeys uname marker) jZero maxA).1 with
    | error e => rfl
    | ok resp =>
      dsimp only
      by_cases ht : resp.isTruncated = "true"
      · simp only [if_pos ht]; rw [ih]
      · simp only [if_neg ht]

@[simp] theorem mfasLoop_jitter (conn : IamConn) (j : Nat → Nat) (maxA : Nat)
    (uname : String) : ∀ (fuel : Nat) (marker : Option String) (acc : List MfaDevice),
    mfasLoop conn j maxA uname marker acc fuel =
      mfasLoop conn jZero maxA uname marker acc fuel := by
  intro fuel
  induction fuel with
  | zero => intro marker acc; rfl
  | succ n ih =>
    intro marker acc
    simp only [mfasLoop, rateLimitedCall_fst]
    cases hrc : (rateLimitedCall (conn.getAllMfaDevices uname marker) jZero maxA).1 with
    | error e => rfl
    | ok resp =>
      dsimp only
      by_cases ht : resp.isTruncated = "true"
      · simp only [if_pos ht]; rw [ih]
      · simp only [if_neg ht]

@[simp] theorem certsFetchLoop_jitter (conn : IamConn) (j : Nat → Nat) (maxA : Nat)
    (uname : String) : ∀ (fuel : Nat) (marker : Option String) (acc : List SigningCert),
    certsFetchLoop conn j maxA uname marker acc fuel =
      certsFetchLoop conn jZero maxA uname marker acc fuel := by
  intro fuel
  induction fuel with
  | zero => intro marker acc; rfl
  | succ n ih =>
    intro marker acc
    simp only [certsFetchLoop, rateLimitedCall_fst]
    cases hrc : (rateLimitedCall (conn.getAllSigningCerts uname marker) jZero maxA).1 with
    | error e => rfl
    | ok resp =>
      dsimp only
      by_cases ht : resp.isTruncated = "true"
      · simp only [if_pos ht]; rw [ih]
      · simp only [if_neg ht]

@[simp] theorem policyNamesForUser_jitter (conn : IamConn) (j : Nat → Nat) (maxA : Nat)
    (uname : String) (fuel : Nat) :
    policyNamesForUser conn j maxA uname fuel = policyNamesForUser conn jZero maxA uname fuel := by
  simp only [policyNamesForUser, policyNamesLoop_jitter]

@[simp] theorem accessKeysForUser_jitter (conn : IamConn) (j : Nat → Nat) (maxA : Nat)
    (uname : String) (fuel : Nat) :
    accessKeysForUser conn j maxA uname fuel = accessKeysForUser conn jZero maxA uname fuel := by
  simp only [accessKeysForUser, accessKeysLoop_jitter]

@[simp] theorem mfasForUser_jitter (conn : IamConn) (j : Nat → Nat) (maxA : Nat)
    (uname : String) (fuel : Nat) :
    mfasForUser conn j maxA uname fuel = mfasForUser conn jZero maxA uname fuel := by
  simp only [mfasForUser, mfasLoop_jitter]

@[simp] theorem certificatesForUser_jitter (conn : IamConn) (j : Nat → Nat) (maxA : Nat)
    (uname : String) (fuel : Nat) :
    certificatesForUser conn j maxA uname fuel = certificatesForUser conn jZero maxA uname fuel := by
  simp only [certificatesForUser, certsFetchLoop_jitter]

@[simp] theorem userPoliciesLoop_jitter (b : IamBackend) (conn : IamConn) (j : Nat → Nat)
    (account uname : String) : ∀ (names : List String) (upol : List (String × Json))
    (stale : Option Json) (em : ExcMap),
    userPoliciesLoop b conn j account uname names upol stale em =
      userPoliciesLoop b conn jZero account uname names upol stale em := by
  intro names
  induction names with
  | nil => intro upol stale em; rfl
  | cons pn rest ih =>
    intro upol stale em
    simp only [userPoliciesLoop, rateLimitedCall_fst]
    cases hrc : (rateLimitedCall (conn.getUserPolicy uname pn) jZero b.maxAttempts).1 with
    | error e => rfl
    | ok docResp =>
      dsimp only
      cases hj : b.jsonLoads (b.urlUnquote docResp.policyDocument) with
      | ok d =>
        dsimp only
        cases hpd : pyDict d with
        | error e => rfl
        | ok fields => dsimp only; rw [ih]
      | error e =>
        dsimp only
        cases stale with
        | none => rfl
        | some pd =>
          dsimp only
          cases hpd : pyDict pd with
          | error e2 => rfl
          | ok fields => dsimp only; rw [ih]

@[simp] theorem processUser_jitter (b : IamBackend) (conn : IamConn) (j : Nat → Nat)
    (account : String) (mp : List (String × List Json)) (user : IamUser)
    (stale : Option Json) (em : ExcMap) (fuel : Nat) :
    processUser b conn j account mp user stale em fuel =
      processUser b conn jZero account mp user stale em fuel := by
  simp only [processUser, policyNamesForUser_jitter, userPoliciesLoop_jitter,
    accessKeysForUser_jitter, mfasForUser_jitter, certificatesForUser_jitter,
    rateLimitedCall_fst]

@[simp] theorem usersLoop_jitter (b : IamBackend) (conn : IamConn) (j : Nat → Nat)
    (account : String) (mp : List (String × List Json)) :
    ∀ (users : List IamUser) (stale : Option Json) (items : List IamItem)
    (em : ExcMap) (fuel : Nat),
    usersLoop b conn j account mp users stale items em fuel =
      usersLoop b conn jZero account mp users stale items em fuel := by
  intro users
  induction users with
  | nil => intro stale items em fuel; rfl
  | cons u rest ih =>
    intro stale items em fuel
    simp only [usersLoop, processUser_jitter]
    by_cases hig : b.checkIgnoreList u.userName
    · simp only [if_pos hig]; exact ih stale items em fuel
    · simp only [if_neg hig]
      cases hp : processUser b conn jZero account mp u stale em fuel with
      | none => rfl
      | some pr =>
        obtain ⟨r, log⟩ := pr
        cases r with
        | error e => rfl
        | ok t =>
          obtain ⟨item, stale2, em2⟩ := t
          dsimp only
          rw [ih]

@[simp] theorem connectPhase_jitter (b : IamBackend) (j : Nat → Nat) (account : String)
    (fuel : Nat) : connectPhase b j account fuel = connectPhase b jZero account fuel := by
  simp only [connectPhase, getAllUsersLoop_jitter]

@[simp] theorem accountsLoop_jitter (b : IamBackend) (j : Nat → Nat) :
    ∀ (accounts : List String) (stale : Option Json) (items : List IamItem)
    (em : ExcMap) (fuel : Nat),
    accountsLoop b j accounts stale items em fuel =
      accountsLoop b jZero accounts stale items em fuel := by
  intro accounts
  induction accounts with
  | nil => intro stale items em fuel; rfl
  | cons a rest ih =>
    intro stale items em fuel
    simp only [accountsLoop, connectPhase_jitter, usersLoop_jitter]
    cases hc : connectPhase b jZero a fuel with
    | none => rfl
    | some pr =>
      obtain ⟨r, log⟩ := pr
      cases r with
      | error e => dsimp only; rw [ih]
      | ok t =>
        obtain ⟨conn, mp, users⟩ := t
        dsimp only
        cases hu : usersLoop b conn jZero a mp users stale items em fuel with
        | none => rfl
        | some pr2 =>
          obtain ⟨r2, log2⟩ := pr2
          cases r2 with
          | error e => rfl
          | ok t2 =>
            obtain ⟨items2, stale2, em2⟩ := t2
            dsimp only
            rw [ih]

/-- C9: `IAMUser.slurp` is deterministic with respect to the backend: the
injected randomness source of the rate-limited caller (the backoff
jitter) never influences the returned `(item_list, exception_map)` pair
nor the set of calls issued, so two runs against the same unchanged
collaborators return equal results. -/
theorem slurp_deterministic_under_jitter (b : IamBackend) (accounts : List String)
    (j1 j2 : Nat → Nat) (fuel : Nat) :
    slurpIamUser b accounts j1 fuel = slurpIamUser b accounts j2 fuel := by
  simp only [slurpIamUser, accountsLoop_jitter]


/-! ### Pagination completeness -/

theorem utok_length (i : Nat) : (utok i).length = i := by
  simp [utok, String.length]

theorem utok_ne_empty (i : Nat) : utok (i + 1) ≠ "" := by
  intro h
  have h2 := congrArg String.length h
  rw [utok_length] at h2
  simp at h2

theorem midx_utok (i : Nat) : midx (some (utok i)) = i := by
  simp [midx, utok_length]

theorem flatten_drop {α : Type} : ∀ (pages : List (List α)) (i : Nat),
    (pages.drop i).flatten = pages.getD i [] ++ (pages.drop (i + 1)).flatten := by
  intro pages
  induction pages with
  | nil => intro i; simp
  | cons p rest ih =>
    intro i
    cases i with
    | zero => simp
    | succ n => simpa using ih n

theorem flatten_drop_last {α : Type} (pages : List (List α)) (i : Nat)
    (h : pages.length ≤ i + 1) : (pages.drop i).flatten = pages.getD i [] := by
  rw [flatten_drop]
  rw [List.drop_eq_nil_of_le h]
  simp

theorem policyNamesLoop_chain (pages : List (List String)) (j : Nat → Nat) (m : Nat)
    (uname : String) : ∀ (fuel : Nat) (mk : Option String) (acc : List String),
    pages.length - midx mk < fuel →
    ∃ log, policyNamesLoop (chainPoliciesConn pages) j (m + 1) uname mk acc fuel =
      some (.ok (acc ++ (pages.drop (midx mk)).flatten), log) := by
  intro fuel
  induction fuel with
  | zero => intro mk acc h; omega
  | succ n ih =>
    intro mk acc h
    simp only [policyNamesLoop]
    have hok : (rateLimitedCall ((chainPoliciesConn pages).getAllUserPolicies uname mk) j (m + 1)).1
        = .ok ⟨pages.getD (midx mk) [],
               if midx mk + 1 < pages.length then "true" else "false",
               some (utok (midx mk + 1))⟩ := rfl
    rw [hok]
    dsimp only
    rcases Nat.lt_or_ge (midx mk + 1) pages.length with hlt | hge
    · rw [if_pos hlt]
      rw [if_pos rfl]
      obtain ⟨log, hrec⟩ := ih (some (utok (midx mk + 1))) (acc ++ pages.getD (midx mk) [])
        (by rw [midx_utok]; omega)
      rw [midx_utok] at hrec
      rw [hrec]
      refine ⟨CallTag.getAllUserPolicies uname mk :: log, ?_⟩
      rw [flatten_drop pages (midx mk), List.append_assoc]
    · rw [if_neg (show ¬(midx mk + 1 < pages.length) by omega)]
      rw [if_neg (show ¬(("false" : String) = "true") by decide)]
      exact ⟨[CallTag.getAllUserPolicies uname mk],
        by rw [flatten_drop_last pages (midx mk) hge]⟩

theorem truthy_utok (i : Nat) : truthy (some (utok (i + 1))) = true := by
  simp [truthy, utok_ne_empty]

theorem topicSubsLoop_chain (pages : List (List Json)) (j : Nat → Nat) (m : Nat)
    (arn : String) : ∀ (fuel : Nat) (tk : Option String) (acc : List Json),
    pages.length - midx tk < fuel →
    topicSubsLoop (chainSubsConn pages) j (m + 1) arn tk acc fuel =
      some (.ok (acc ++ (pages.drop (midx tk)).flatten)) := by
  intro fuel
  induction fuel with
  | zero => intro tk acc h; omega
  | succ n ih =>
    intro tk acc h
    simp only [topicSubsLoop]
    have hok : (rateLimitedCall ((chainSubsConn pages).getAllSubscriptionsByTopic arn tk) j (m + 1)).1
        = .ok ⟨pages.getD (midx tk) [],
               if midx tk + 1 < pages.length then some (utok (midx tk + 1)) else none⟩ := rfl
    rw [hok]
    dsimp only
    rcases Nat.lt_or_ge (midx tk + 1) pages.length with hlt | hge
    · rw [if_pos hlt]
      dsimp only
      have hrec := ih (some (utok (midx tk + 1))) (acc ++ pages.getD (midx tk) [])
        (by rw [midx_utok]; omega)
      rw [midx_utok] at hrec
      rw [hrec, flatten_drop pages (midx tk), List.append_assoc]
    · rw [if_neg (show ¬(midx tk + 1 < pages.length) by omega)]
      dsimp only
      rw [flatten_drop_last pages (midx tk) hge]

theorem allTopicsLoop_chain (pages : List (List Json)) (j : Nat → Nat) (m : Nat) :
    ∀ (fuel : Nat) (tk : Option String) (acc : List Json),
    pages.length - midx tk < fuel →
    allTopicsLoop (chainTopicsConn pages) j (m + 1) tk acc fuel =
      some (.ok (acc ++ (pages.drop (midx tk)).flatten)) := by
  intro fuel
  induction fuel with
  | zero => intro tk acc h; omega
  | succ n ih =>
    intro tk acc h
    simp only [allTopicsLoop]
    have hok : (rateLimitedCall ((chainTopicsConn pages).getAllTopics tk) j (m + 1)).1
        = .ok ⟨pages.getD (midx tk) [],
               if midx tk + 1 < pages.length then some (utok (midx tk + 1)) else none⟩ := rfl
    rw [hok]
    dsimp only
    rcases Nat.lt_or_ge (midx tk + 1) pages.length with hlt | hge
    · rw [if_pos hlt, truthy_utok, if_pos rfl]
      have hrec := ih (some (utok (midx tk + 1))) (acc ++ pages.getD (midx tk) [])
        (by rw [midx_utok]; omega)
      rw [midx_utok] at hrec
      rw [hrec, flatten_drop pages (midx tk), List.append_assoc]
    · rw [if_neg (show ¬(midx tk + 1 < pages.length) by omega)]
      simp only [truthy]
      rw [if_neg (show ¬(false = true) by decide)]
      rw [flatten_drop_last pages (midx tk) hge]

/-- C4: pagination completeness.  For every finite page sequence in which
every page except the last carries a next-cursor (or a true truncation
flag) and the last does not, each pagination loop returns exactly the
concatenation of the pages' item lists in page order — for the
truncation-flag convention (`policy_names_for_user`), the next-token
convention (`_get_topic_subscriptions`) and the token-truthiness
convention (`get_all_topics_in_region`). -/
theorem paginator_concat_completeness :
    (∀ (pages : List (List String)) (j : Nat → Nat) (m : Nat) (uname : String),
      (policyNamesForUser (chainPoliciesConn pages) j (m + 1) uname (pages.length + 1)).map Prod.fst
        = some (.ok pages.flatten)) ∧
    (∀ (pages : List (List Json)) (j : Nat → Nat) (m : Nat) (arn : String),
      getTopicSubscriptions (chainSubsConn pages) j (m + 1) arn (pages.length + 1)
        = some (.ok pages.flatten)) ∧
    (∀ (pages : List (List Json)) (j : Nat → Nat) (m : Nat),
      getAllTopicsInRegion (chainTopicsConn pages) j (m + 1) (pages.length + 1)
        = some (.ok pages.flatten)) := by
  refine ⟨fun pages j m uname => ?_, fun pages j m arn => ?_, fun pages j m => ?_⟩
  · obtain ⟨log, hl⟩ := policyNamesLoop_chain pages j m uname (pages.length + 1) none []
      (by simp only [midx]; omega)
    rw [policyNamesForUser, hl]
    simp [midx]
  · have hl := topicSubsLoop_chain pages j m arn (pages.length + 1) none []
      (by simp only [midx]; omega)
    rw [getTopicSubscriptions, hl]
    simp [midx]
  · have hl := allTopicsLoop_chain pages j m (pages.length + 1) none []
      (by simp only [midx]; omega)
    rw [getAllTopicsInRegion, hl]
    simp [midx]

/-! ### Pagination termination -/

/-- C5, counterexample: the loops have no defensive empty-page or
max-page bound.  Against a backend that always answers with an empty
subscription page and the non-empty token `"x"`, the pagination loop of
`_get_topic_subscriptions` exhausts every fuel bound, i.e. it loops
forever, contradicting the claim that an empty page with a non-empty
cursor does not cause an infinite loop. -/
theorem empty_page_with_cursor_loops_forever :
    topicSubsLoopDiverges emptyPageSubsConn jZero 1 "arn:aws:sns:us-east-1:000000000000:mytopic" := by
  intro fuel
  induction fuel with
  | zero => intro token acc; rfl
  | succ n ih =>
    intro token acc
    simp only [topicSubsLoop]
    exact ih (some "x") (acc ++ [])

/-- C5, amended: the pagination loops terminate only through their
cursor condition; there is no defensive empty-page or page-count bound.
Whenever every fetched page — empty or not — carries a continuation
signal (a non-`None` `NextToken` for `_get_topic_subscriptions`, a
`marker` attribute for the `get_all_users` loop of `IAMUser.slurp`),
the loop never terminates. -/
theorem pagination_terminates_only_by_cursor :
    (∀ (conn : SnsConn) (j : Nat → Nat) (maxA : Nat) (arn : String),
      (∀ tk, ∃ resp t,
        (rateLimitedCall (conn.getAllSubscriptionsByTopic arn tk) j maxA).1 = .ok resp ∧
        resp.nextToken = some t) →
      topicSubsLoopDiverges conn j maxA arn) ∧
    (∀ (conn : IamConn) (j : Nat → Nat) (maxA : Nat),
      (∀ mk, ∃ resp t,
        (rateLimitedCall (conn.getAllUsers mk) j maxA).1 = .ok resp ∧
        resp.markerAttr = some t) →
      getAllUsersLoopDiverges conn j maxA) := by
  constructor
  · intro conn j maxA arn h fuel
    induction fuel with
    | zero => intro token acc; rfl
    | succ n ih =>
      intro token acc
      obtain ⟨resp, t, hr, ht⟩ := h token
      simp only [topicSubsLoop, hr]
      simp only [ht]
      exact ih (some t) (acc ++ resp.subscriptions)
  · intro conn j maxA h fuel
    induction fuel with
    | zero => intro marker acc; rfl
    | succ n ih =>
      intro marker acc
      obtain ⟨resp, t, hr, ht⟩ := h marker
      simp only [getAllUsersLoop, hr]
      simp only [ht]
      rw [ih (some t) (acc ++ resp.users)]

/-- Witness for the amended C5: both divergence statements applied to
concrete backends that return empty pages with a continuation signal. -/
theorem pagination_terminates_only_by_cursor_witness :
    topicSubsLoopDiverges emptyPageSubsConn2 jZero 1 "arn:aws:sns:eu-west-1:000000000000:t2" ∧
    getAllUsersLoopDiverges emptyPageUsersConn jZero 1 :=
  ⟨pagination_terminates_only_by_cursor.1 emptyPageSubsConn2 jZero 1
      "arn:aws:sns:eu-west-1:000000000000:t2"
      (fun _ => ⟨⟨[], some "more"⟩, "more", rfl, rfl⟩),
   pagination_terminates_only_by_cursor.2 emptyPageUsersConn jZero 1
      (fun _ => ⟨⟨[], some "y"⟩, "y", rfl, rfl⟩)⟩

/-! ### Failure isolation across accounts -/

theorem c3_processUser (A B : String) (us : List IamUser) (lp : List (String × Json))
    (j : Nat → Nat) (u : IamUser) (st : Option Json) (em : ExcMap) (f : Nat) :
    processUser (c3Backend A us lp) (c3Conn us lp) j B [] u st em (f + 1) =
      some (.ok (c3ExpectedItem B lp u, st, em),
        [CallTag.getAllUserPolicies u.userName none, CallTag.getAllAccessKeys u.userName none,
         CallTag.getAllMfaDevices u.userName none, CallTag.getLoginProfiles u.userName,
         CallTag.getAllSigningCerts u.userName none]) := rfl

theorem c3_usersLoop (A B : String) (us0 : List IamUser) (lp : List (String × Json))
    (j : Nat → Nat) (f : Nat) :
    ∀ (us : List IamUser) (st : Option Json) (items : List IamItem) (em : ExcMap),
    ∃ log, usersLoop (c3Backend A us0 lp) (c3Conn us0 lp) j B [] us st items em (f + 1) =
      some (.ok (items ++ us.map (c3ExpectedItem B lp), st, em), log) := by
  intro us
  induction us with
  | nil =>
    intro st items em
    exact ⟨[], by simp [usersLoop]⟩
  | cons u rest ih =>
    intro st items em
    simp only [usersLoop]
    rw [show (c3Backend A us0 lp).checkIgnoreList u.userName = false from rfl]
    simp only [Bool.false_eq_true, if_false]
    rw [c3_processUser]
    obtain ⟨log2, h2⟩ := ih st (items ++ [c3ExpectedItem B lp u]) em
    dsimp only
    rw [h2, show items ++ [c3ExpectedItem B lp u] ++ List.map (c3ExpectedItem B lp) rest
        = items ++ c3ExpectedItem B lp u :: List.map (c3ExpectedItem B lp) rest by simp]
    exact ⟨_, rfl⟩

/-- C3: account-level failure isolation.  When `connect` raises for
account `A` and succeeds for account `B`, `IAMUser.slurp` over `[A, B]`
still emits B's full expected `ChangeItem` set, and its exception map
contains exactly one entry, keyed at A's scope
`('iamuser', A, 'universal')`. -/
theorem connect_failure_isolated_to_account (A B : String) (hBA : B ≠ A)
    (us : List IamUser) (lp : List (String × Json)) (j : Nat → Nat) (fuel : Nat) :
    (slurpIamUser (c3Backend A us lp) [A, B] j (fuel + 1)).map Prod.fst =
      some (.ok (us.map (c3ExpectedItem B lp),
        [(⟨"iamuser", A, "universal", none⟩,
          .botoConnectionIssue (pyStr (.generic "could not connect")))])) := by
  have hA : connectPhase (c3Backend A us lp) j A (fuel + 1) =
      some (.error (.generic "could not connect"), []) := by
    simp [connectPhase, c3Backend]
  have hb3 : (c3Backend A us lp).connectBoto3 B = .ok [] := by
    simp [c3Backend, hBA]
  have hB : connectPhase (c3Backend A us lp) j B (fuel + 1) =
      some (.ok (c3Conn us lp, [], us), [CallTag.getAllUsers none]) := by
    simp only [connectPhase, hb3]
    rfl
  simp only [slurpIamUser, accountsLoop, hA, hB]
  obtain ⟨log, hu⟩ := c3_usersLoop A B us lp j fuel us none []
    (recordException ⟨"iamuser", A, "universal", none⟩
      (.botoConnectionIssue (pyStr (.generic "could not connect"))) [])
  rw [hu]
  simp [accountsLoop, recordException]

/-! ### The optional login profile -/

theorem certsLoop_mkCert : ∀ (cs : List CertData) (d : List (String × Json)),
    certsLoop (List.map mkCert cs) d =
      .ok (cs.foldl (fun d c => upsert d c.id (Json.obj c.rest)) d) := by
  intro cs
  induction cs with
  | nil => intro d; rfl
  | cons c rest ih => intro d; exact ih (upsert d c.id (Json.obj c.rest))

theorem c7_processUser (a : String) (u : IamUser) (ks : List AccessKey)
    (ms : List MfaDevice) (cs : List CertData) (j : Nat → Nat) (st : Option Json)
    (em : ExcMap) (f : Nat) :
    processUser (c7Backend u ks ms cs) (c7Conn u ks ms cs) j a [] u st em (f + 1) =
      some (.ok (⟨"iamuser", "universal", a, u.userName, c7Config u ks ms cs⟩, st, em),
        [CallTag.getAllUserPolicies u.userName none, CallTag.getAllAccessKeys u.userName none,
         CallTag.getAllMfaDevices u.userName none, CallTag.getLoginProfiles u.userName,
         CallTag.getAllSigningCerts u.userName none]) := by
  show (match certsLoop (List.map mkCert cs) [] with
    | Except.error e => some (.error e,
        [CallTag.getAllUserPolicies u.userName none, CallTag.getAllAccessKeys u.userName none,
         CallTag.getAllMfaDevices u.userName none, CallTag.getLoginProfiles u.userName,
         CallTag.getAllSigningCerts u.userName none])
    | Except.ok certsD =>
      some (.ok (⟨"iamuser", "universal", a, u.userName,
          [("user", Json.obj u.asDict), ("userpolicies", Json.obj []),
           ("accesskeys", Json.obj (keysDict ks)), ("mfadevices", Json.obj (mfasDict ms)),
           ("signingcerts", Json.obj certsD)]⟩, st, em),
        [CallTag.getAllUserPolicies u.userName none, CallTag.getAllAccessKeys u.userName none,
         CallTag.getAllMfaDevices u.userName none, CallTag.getLoginProfiles u.userName,
         CallTag.getAllSigningCerts u.userName none]) :
    Option (Except PyExc (IamItem × Option Json × ExcMap) × List CallTag)) = _
  rw [certsLoop_mkCert]
  rfl

/-- C7: the login profile is a best-effort optional sub-fetch.  For every
user whose `get_login_profiles` call fails while all other detail
fetches succeed, `IAMUser.slurp` emits the user's `ChangeItem` with all
other configuration fields, omits only the `loginprofile` key, and
records nothing in the exception map. -/
theorem login_profile_absence_silent (a : String) (u : IamUser) (ks : List AccessKey)
    (ms : List MfaDevice) (cs : List CertData) (j : Nat → Nat) (fuel : Nat) :
    (slurpIamUser (c7Backend u ks ms cs) [a] j (fuel + 1)).map Prod.fst =
      some (.ok ([⟨"iamuser", "universal", a, u.userName, c7Config u ks ms cs⟩], [])) ∧
    alook (c7Config u ks ms cs) "loginprofile" = none := by
  constructor
  · have hcp : connectPhase (c7Backend u ks ms cs) j a (fuel + 1) =
        some (.ok (c7Conn u ks ms cs, [], [u]), [CallTag.getAllUsers none]) := rfl
    simp only [slurpIamUser, accountsLoop, hcp]
    simp only [usersLoop]
    rw [show (c7Backend u ks ms cs).checkIgnoreList u.userName = false from rfl]
    simp only [Bool.false_eq_true, if_false]
    rw [c7_processUser]
    rfl
  · rfl

/-- Witness for C3 at a concrete pair of accounts and one listed user. -/
theorem connect_failure_isolated_to_account_witness :
    (slurpIamUser (c3Backend "acctA" [⟨"bob", "arn:aws:iam::1:user/bob", []⟩]
        [("create_date", Json.str "2014-04-01")]) ["acctA", "acctB"] jZero 1).map Prod.fst =
      some (.ok ([c3ExpectedItem "acctB" [("create_date", Json.str "2014-04-01")]
          ⟨"bob", "arn:aws:iam::1:user/bob", []⟩],
        [(⟨"iamuser", "acctA", "universal", none⟩,
          .botoConnectionIssue (pyStr (.generic "could not connect")))])) :=
  connect_failure_isolated_to_account "acctA" "acctB" (by decide)
    [⟨"bob", "arn:aws:iam::1:user/bob", []⟩] [("create_date", Json.str "2014-04-01")] jZero 0

/-! ### Which calls a slurp run issues -/

theorem policyNamesLoop_log (conn : IamConn) (j : Nat → Nat) (maxA : Nat) (uname : String) :
    ∀ (fuel : Nat) (marker : Option String) (acc : List String),
    ∀ t ∈ logOf (policyNamesLoop conn j maxA uname marker acc fuel),
      CallTag.target t = some uname := by
  intro fuel
  induction fuel with
  | zero => intro marker acc t ht; cases ht
  | succ n ih =>
    intro marker acc
    simp only [policyNamesLoop]
    cases hrc : (rateLimitedCall (conn.getAllUserPolicies uname marker) j maxA).1 with
    | error e => intro t ht; simp only [logOf, List.mem_singleton] at ht; subst ht; rfl
    | ok resp =>
      dsimp only
      by_cases htr : resp.isTruncated = "true"
      · simp only [if_pos htr]
        cases hrec : policyNamesLoop conn j maxA uname resp.marker (acc ++ resp.policyNames) n with
        | none => intro t ht; cases ht
        | some pr =>
          dsimp only
          intro t ht
          simp only [logOf] at ht
          rcases List.mem_cons.mp ht with rfl | hmem
          · rfl
          · have hrest := ih resp.marker (acc ++ resp.policyNames)
            rw [hrec] at hrest
            exact hrest t hmem
      · simp only [if_neg htr]
        intro t ht
        simp only [logOf, List.mem_singleton] at ht
        subst ht
        rfl

theorem accessKeysLoop_log (conn : IamConn) (j : Nat → Nat) (maxA : Nat) (uname : String) :
    ∀ (fuel : Nat) (marker : Option String) (acc : List AccessKey),
    ∀ t ∈ logOf (accessKeysLoop conn j maxA uname marker acc fuel),
      CallTag.target t = some uname := by
  intro fuel
  induction fuel with
  | zero => intro marker acc t ht; cases ht
  | succ n ih =>
    intro marker acc
    simp only [accessKeysLoop]
    cases hrc : (rateLimitedCall (conn.getAllAccessKeys uname marker) j maxA).1 with
    | error e => intro t ht; simp only [logOf, List.mem_singleton] at ht; subst ht; rfl
    | ok resp =>
      dsimp only
      by_cases htr : resp.isTruncated = "true"
      · simp only [if_pos htr]
        cases hrec : accessKeysLoop conn j maxA uname resp.marker (acc ++ resp.accessKeyMetadata) n with
        | none => intro t ht; cases ht
        | some pr =>
          dsimp only
          intro t ht
          simp only [logOf] at ht
          rcases List.mem_cons.mp ht with rfl | hmem
          · rfl
          · have hrest := ih resp.marker (acc ++ resp.accessKeyMetadata)
            rw [hrec] at hrest
            exact hrest t hmem
      · simp only [if_neg htr]
        intro t ht
        simp only [logOf, List.mem_singleton] at ht
        subst ht
        rfl

theorem mfasLoop_log (conn : IamConn) (j : Nat → Nat) (maxA : Nat) (uname : String) :
    ∀ (fuel : Nat) (marker : Option String) (acc : List MfaDevice),
    ∀ t ∈ logOf (mfasLoop conn j maxA uname marker acc fuel),
      CallTag.target t = some uname := by
  intro fuel
  induction fuel with
  | zero => intro marker acc t ht; cases ht
  | succ n ih =>
    intro marker acc
    simp only [mfasLoop]
    cases hrc : (rateLimitedCall (conn.getAllMfaDevices uname marker) j maxA).1 with
    | error e => intro t ht; simp only [logOf, List.mem_singleton] at ht; subst ht; rfl
    | ok resp =>
      dsimp only
      by_cases htr : resp.isTruncated = "true"
      · simp only [if_pos htr]
        cases hrec : mfasLoop conn j maxA uname resp.marker (acc ++ resp.mfaDevices) n with
        | none => intro t ht; cases ht
        | some pr =>
          dsimp only
          intro t ht
          simp only [logOf] at ht
          rcases List.mem_cons.mp ht with rfl | hmem
          · rfl
          · have hrest := ih resp.marker (acc ++ resp.mfaDevices)
            rw [hrec] at hrest
            exact hrest t hmem
      · simp only [if_neg htr]
        intro t ht
        simp only [logOf, List.mem_singleton] at ht
        subst ht
        rfl

theorem certsFetchLoop_log (conn : IamConn) (j : Nat → Nat) (maxA : Nat) (uname : String) :
    ∀ (fuel : Nat) (marker : Option String) (acc : List SigningCert),
    ∀ t ∈ logOf (certsFetchLoop conn j maxA uname marker acc fuel),
      CallTag.target t = some uname := by
  intro fuel
  induction fuel with
  | zero => intro marker acc t ht; cases ht
  | succ n ih =>
    intro marker acc
    simp only [certsFetchLoop]
    cases hrc : (rateLimitedCall (conn.getAllSigningCerts uname marker) j maxA).1 with
    | error e => intro t ht; simp only [logOf, List.mem_singleton] at ht; subst ht; rfl
    | ok resp =>
      dsimp only
      by_cases htr : resp.isTruncated = "true"
      · simp only [if_pos htr]
        cases hrec : certsFetchLoop conn j maxA uname resp.marker (acc ++ resp.certificates) n with
        | none => intro t ht; cases ht
        | some pr =>
          dsimp only
          intro t ht
          simp only [logOf] at ht
          rcases List.mem_cons.mp ht with rfl | hmem
          · rfl
          · have hrest := ih resp.marker (acc ++ resp.certificates)
            rw [hrec] at hrest
            exact hrest t hmem
      · simp only [if_neg htr]
        intro t ht
        simp only [logOf, List.mem_singleton] at ht
        subst ht
        rfl

theorem getAllUsersLoop_log (conn : IamConn) (j : Nat → Nat) (maxA : Nat) :
    ∀ (fuel : Nat) (marker : Option String) (acc : List IamUser),
    ∀ t ∈ logOf (getAllUsersLoop conn j maxA marker acc fuel),
      CallTag.target t = none := by
  intro fuel
  induction fuel with
  | zero => intro marker acc t ht; cases ht
  | succ n ih =>
    intro marker acc
    simp only [getAllUsersLoop]
    cases hrc : (rateLimitedCall (conn.getAllUsers marker) j maxA).1 with
    | error e => intro t ht; simp only [logOf, List.mem_singleton] at ht; subst ht; rfl
    | ok resp =>
      dsimp only
      cases hm : resp.markerAttr with
      | some m =>
        dsimp only
        cases hrec : getAllUsersLoop conn j maxA (some m) (acc ++ resp.users) n with
        | none => intro t ht; cases ht
        | some pr =>
          dsimp only
          intro t ht
          simp only [logOf] at ht
          rcases List.mem_cons.mp ht with rfl | hmem
          · rfl
          · have hrest := ih (some m) (acc ++ resp.users)
            rw [hrec] at hrest
            exact hrest t hmem
      | none =>
        dsimp only
        intro t ht
        simp only [logOf, List.mem_singleton] at ht
        subst ht
        rfl

theorem userPoliciesLoop_log (b : IamBackend) (conn : IamConn) (j : Nat → Nat)
    (account uname : String) : ∀ (names : List String) (upol : List (String × Json))
    (stale : Option Json) (em : ExcMap),
    ∀ t ∈ (userPoliciesLoop b conn j account uname names upol stale em).2,
      CallTag.target t = some uname := by
  intro names
  induction names with
  | nil => intro upol stale em t ht; cases ht
  | cons pn rest ih =>
    intro upol stale em
    simp only [userPoliciesLoop]
    cases hrc : (rateLimitedCall (conn.getUserPolicy uname pn) j b.maxAttempts).1 with
    | error e => intro t ht; simp only [List.mem_singleton] at ht; subst ht; rfl
    | ok docResp =>
      dsimp only
      cases hj : b.jsonLoads (b.urlUnquote docResp.policyDocument) with
      | ok d =>
        dsimp only
        cases hpd : pyDict d with
        | error e => intro t ht; simp only [List.mem_singleton] at ht; subst ht; rfl
        | ok fields =>
          dsimp only
          intro t ht
          rcases List.mem_cons.mp ht with rfl | hmem
          · rfl
          · exact ih _ _ _ t hmem
      | error e =>
        dsimp only
        cases stale with
        | none => intro t ht; simp only [List.mem_singleton] at ht; subst ht; rfl
        | some pd =>
          dsimp only
          cases hpd : pyDict pd with
          | error e2 => intro t ht; simp only [List.mem_singleton] at ht; subst ht; rfl
          | ok fields =>
            dsimp only
            intro t ht
            rcases List.mem_cons.mp ht with rfl | hmem
            · rfl
            · exact ih _ _ _ t hmem

theorem policyNamesForUser_log (conn : IamConn) (j : Nat → Nat) (maxA : Nat)
    (uname : String) (fuel : Nat) :
    ∀ t ∈ logOf (policyNamesForUser conn j maxA uname fuel),
      CallTag.target t = some uname :=
  policyNamesLoop_log conn j maxA uname fuel none []

theorem accessKeysForUser_log (conn : IamConn) (j : Nat → Nat) (maxA : Nat)
    (uname : String) (fuel : Nat) :
    ∀ t ∈ logOf (accessKeysForUser conn j maxA uname fuel),
      CallTag.target t = some uname :=
  accessKeysLoop_log conn j maxA uname fuel none []

theorem mfasForUser_log (conn : IamConn) (j : Nat → Nat) (maxA : Nat)
    (uname : String) (fuel : Nat) :
    ∀ t ∈ logOf (mfasForUser conn j maxA uname fuel),
      CallTag.target t = some uname :=
  mfasLoop_log conn j maxA uname fuel none []

theorem certificatesForUser_log (conn : IamConn) (j : Nat → Nat) (maxA : Nat)
    (uname : String) (fuel : Nat) :
    ∀ t ∈ logOf (certificatesForUser conn j maxA uname fuel),
      CallTag.target t = some uname :=
  certsFetchLoop_log conn j maxA uname fuel none []

theorem processUser_log (b : IamBackend) (conn : IamConn) (j : Nat → Nat)
    (account : String) (mp : List (String × List Json)) (user : IamUser)
    (stale : Option Json) (em : ExcMap) (fuel : Nat) :
    ∀ t ∈ logOf (processUser b conn j account mp user stale em fuel),
      CallTag.target t = some user.userName := by
  simp only [processUser]
  cases hpn : policyNamesForUser conn j b.maxAttempts user.userName fuel with
  | none => intro t ht; cases ht
  | some pr1 =>
    obtain ⟨r1, log1⟩ := pr1
    have hlog1 := policyNamesForUser_log conn j b.maxAttempts user.userName fuel
    rw [hpn] at hlog1
    dsimp only [logOf] at hlog1
    cases r1 with
    | error e => intro t ht; dsimp only [logOf] at ht; exact hlog1 t ht
    | ok policyNames =>
      dsimp only
      cases hup : userPoliciesLoop b conn j account user.userName policyNames [] stale em with
      | mk r2 log2 =>
        have hlog2 := userPoliciesLoop_log b conn j account user.userName policyNames [] stale em
        rw [hup] at hlog2
        cases r2 with
        | error e =>
          intro t ht
          dsimp only [logOf] at ht
          rcases List.mem_append.mp ht with h1 | h2
          · exact hlog1 t h1
          · exact hlog2 t h2
        | ok t2 =>
          obtain ⟨upol, stale2, em2⟩ := t2
          dsimp only
          cases hak : accessKeysForUser conn j b.maxAttempts user.userName fuel with
          | none => intro t ht; cases ht
          | some pr3 =>
            obtain ⟨r3, log3⟩ := pr3
            have hlog3 := accessKeysForUser_log conn j b.maxAttempts user.userName fuel
            rw [hak] at hlog3
            dsimp only [logOf] at hlog3
            cases r3 with
            | error e =>
              intro t ht
              dsimp only [logOf] at ht
              rcases List.mem_append.mp ht with h12 | h3
              · rcases List.mem_append.mp h12 with h1 | h2
                · exact hlog1 t h1
                · exact hlog2 t h2
              · exact hlog3 t h3
            | ok keys =>
              dsimp only
              cases hmf : mfasForUser conn j b.maxAttempts user.userName fuel with
              | none => intro t ht; cases ht
              | some pr4 =>
                obtain ⟨r4, log4⟩ := pr4
                have hlog4 := mfasForUser_log conn j b.maxAttempts user.userName fuel
                rw [hmf] at hlog4
                dsimp only [logOf] at hlog4
                cases r4 with
                | error e =>
                  intro t ht
                  dsimp only [logOf] at ht
                  rcases List.mem_append.mp ht with h123 | h4
                  · rcases List.mem_append.mp h123 with h12 | h3
                    · rcases List.mem_append.mp h12 with h1 | h2
                      · exact hlog1 t h1
                      · exact hlog2 t h2
                    · exact hlog3 t h3
                  · exact hlog4 t h4
                | ok mfas =>
                  dsimp only
                  cases hcf : certificatesForUser conn j b.maxAttempts user.userName fuel with
                  | none => intro t ht; cases ht
                  | some pr6 =>
                    obtain ⟨r6, log6⟩ := pr6
                    have hlog6 := certificatesForUser_log conn j b.maxAttempts user.userName fuel
                    rw [hcf] at hlog6
                    dsimp only [logOf] at hlog6
                    have hfin : ∀ t ∈ log1 ++ log2 ++ log3 ++ log4 ++
                        [CallTag.getLoginProfiles user.userName] ++ log6,
                        CallTag.target t = some user.userName := by
                      intro t ht
                      rcases List.mem_append.mp ht with h5p | h6
                      · rcases List.mem_append.mp h5p with h4p | h5
                        · rcases List.mem_append.mp h4p with h3p | h4
                          · rcases List.mem_append.mp h3p with h2p | h3
                            · rcases List.mem_append.mp h2p with h1 | h2
                              · exact hlog1 t h1
                              · exact hlog2 t h2
                            · exact hlog3 t h3
                          · exact hlog4 t h4
                        · simp only [List.mem_singleton] at h5
                          subst h5
                          rfl
                      · exact hlog6 t h6
                    cases r6 with
                    | error e => intro t ht; dsimp only [logOf] at ht; exact hfin t ht
                    | ok certs =>
                      dsimp only
                      cases hcl : certsLoop certs [] with
                      | error e => intro t ht; dsimp only [logOf] at ht; exact hfin t ht
                      | ok certsD => intro t ht; dsimp only [logOf] at ht; exact hfin t ht

theorem usersLoop_log (b : IamBackend) (conn : IamConn) (j : Nat → Nat)
    (account : String) (mp : List (String × List Json)) :
    ∀ (users : List IamUser) (stale : Option Json) (items : List IamItem)
      (em : ExcMap) (fuel : Nat),
    ∀ t ∈ logOf (usersLoop b conn j account mp users stale items em fuel),
      ∀ n, CallTag.target t = some n → b.checkIgnoreList n = false := by
  intro users
  induction users with
  | nil => intro stale items em fuel t ht; cases ht
  | cons u rest ih =>
    intro stale items em fuel
    simp only [usersLoop]
    by_cases hig : b.checkIgnoreList u.userName
    · simp only [if_pos hig]
      exact ih stale items em fuel
    · simp only [if_neg hig]
      simp only [Bool.not_eq_true] at hig
      cases hp : processUser b conn j account mp u stale em fuel with
      | none => intro t ht; cases ht
      | some pr =>
        obtain ⟨r, plog⟩ := pr
        have hpl := processUser_log b conn j account mp u stale em fuel
        rw [hp] at hpl
        dsimp only [logOf] at hpl
        cases r with
        | error e =>
          intro t ht n htn
          dsimp only [logOf] at ht
          rw [hpl t ht] at htn
          cases htn
          exact hig
        | ok t2 =>
          obtain ⟨item, stale2, em2⟩ := t2
          dsimp only
          cases hu : usersLoop b conn j account mp rest stale2 (items ++ [item]) em2 fuel with
          | none => intro t ht; cases ht
          | some pr2 =>
            obtain ⟨r2, log2⟩ := pr2
            dsimp only
            intro t ht n htn
            dsimp only [logOf] at ht
            rcases List.mem_append.mp ht with h1 | h2
            · rw [hpl t h1] at htn
              cases htn
              exact hig
            · have hrest := ih stale2 (items ++ [item]) em2 fuel
              rw [hu] at hrest
              exact hrest t h2 n htn

theorem connectPhase_log (b : IamBackend) (j : Nat → Nat) (account : String) (fuel : Nat) :
    ∀ t ∈ logOf (connectPhase b j account fuel), CallTag.target t = none := by
  simp only [connectPhase]
  cases b.connectBoto3 account with
  | error e => intro t ht; cases ht
  | ok policies =>
    dsimp only
    cases allManagedPolicies policies with
    | error e => intro t ht; cases ht
    | ok mp =>
      dsimp only
      cases b.connectIam account with
      | error e => intro t ht; cases ht
      | ok conn =>
        dsimp only
        cases hgu : getAllUsersLoop conn j b.maxAttempts none [] fuel with
        | none => intro t ht; cases ht
        | some pr =>
          obtain ⟨r, log⟩ := pr
          have hl := getAllUsersLoop_log conn j b.maxAttempts fuel none []
          rw [hgu] at hl
          dsimp only [logOf] at hl
          cases r with
          | error e => intro t ht; dsimp only [logOf] at ht; exact hl t ht
          | ok users => intro t ht; dsimp only [logOf] at ht; exact hl t ht

theorem accountsLoop_log (b : IamBackend) (j : Nat → Nat) :
    ∀ (accounts : List String) (stale : Option Json) (items : List IamItem)
      (em : ExcMap) (fuel : Nat),
    ∀ t ∈ logOf (accountsLoop b j accounts stale items em fuel),
      ∀ n, CallTag.target t = some n → b.checkIgnoreList n = false := by
  intro accounts
  induction accounts with
  | nil => intro stale items em fuel t ht; cases ht
  | cons a rest ih =>
    intro stale items em fuel
    simp only [accountsLoop]
    cases hcp : connectPhase b j a fuel with
    | none => intro t ht; cases ht
    | some pr =>
      obtain ⟨r, clog⟩ := pr
      have hcl := connectPhase_log b j a fuel
      rw [hcp] at hcl
      dsimp only [logOf] at hcl
      cases r with
      | error e =>
        dsimp only
        cases har : accountsLoop b j rest stale items
            (recordException ⟨"iamuser", a, "universal", none⟩
              (.botoConnectionIssue (pyStr e)) em) fuel with
        | none => intro t ht; cases ht
        | some pr2 =>
          obtain ⟨r2, log2⟩ := pr2
          dsimp only
          intro t ht n htn
          dsimp only [logOf] at ht
          rcases List.mem_append.mp ht with h1 | h2
          · rw [hcl t h1] at htn; cases htn
          · have hrest := ih stale items
              (recordException ⟨"iamuser", a, "universal", none⟩
                (.botoConnectionIssue (pyStr e)) em) fuel
            rw [har] at hrest
            exact hrest t h2 n htn
      | ok t3 =>
        obtain ⟨conn, mp, users⟩ := t3
        dsimp only
        cases hul : usersLoop b conn j a mp users stale items em fuel with
        | none => intro t ht; cases ht
        | some pr2 =>
          obtain ⟨r2, ulog⟩ := pr2
          have hull := usersLoop_log b conn j a mp users stale items em fuel
          rw [hul] at hull
          dsimp only [logOf] at hull
          cases r2 with
          | error e =>
            dsimp only
            intro t ht n htn
            dsimp only [logOf] at ht
            rcases List.mem_append.mp ht with h1 | h2
            · rw [hcl t h1] at htn; cases htn
            · exact hull t h2 n htn
          | ok t4 =>
            obtain ⟨items2, stale2, em2⟩ := t4
            dsimp only
            cases har : accountsLoop b j rest stale2 items2 em2 fuel with
            | none => intro t ht; cases ht
            | some pr3 =>
              obtain ⟨r3, log3⟩ := pr3
              dsimp only
              intro t ht n htn
              dsimp only [logOf] at ht
              rcases List.mem_append.mp ht with h12 | h3
              · rcases List.mem_append.mp h12 with h1 | h2
                · rw [hcl t h1] at htn; cases htn
                · exact hull t h2 n htn
              · have hrest := ih stale2 items2 em2 fuel
                rw [har] at hrest
                exact hrest t h3 n htn

theorem processUser_shape (b : IamBackend) (conn : IamConn) (j : Nat → Nat)
    (account : String) (mp : List (String × List Json)) (user : IamUser)
    (stale : Option Json) (em : ExcMap) (fuel : Nat) (item : IamItem)
    (st2 : Option Json) (em2 : ExcMap) (log : List CallTag)
    (h : processUser b conn j account mp user stale em fuel = some (.ok (item, st2, em2), log)) :
    item.index = "iamuser" ∧ item.region = "universal" ∧ item.account = account ∧
      item.name = user.userName := by
  unfold processUser at h
  repeat' split at h
  all_goals cases h
  all_goals exact ⟨rfl, rfl, rfl, rfl⟩

theorem usersLoop_emits (b : IamBackend) (conn : IamConn) (j : Nat → Nat)
    (account : String) (mp : List (String × List Json)) :
    ∀ (users : List IamUser) (stale : Option Json) (items : List IamItem) (em : ExcMap)
      (fuel : Nat) (items2 : List IamItem) (st2 : Option Json) (em2 : ExcMap)
      (log : List CallTag),
    usersLoop b conn j account mp users stale items em fuel =
      some (.ok (items2, st2, em2), log) →
    ∃ delta, items2 = items ++ delta ∧
      delta.map IamItem.name =
        (users.filter (fun u => !b.checkIgnoreList u.userName)).map IamUser.userName ∧
      ∀ it ∈ delta, it.index = "iamuser" ∧ it.region = "universal" ∧ it.account = account := by
  intro users
  induction users with
  | nil =>
    intro stale items em fuel items2 st2 em2 log h
    simp only [usersLoop] at h
    cases h
    exact ⟨[], by simp, by simp, by simp⟩
  | cons u rest ih =>
    intro stale items em fuel items2 st2 em2 log h
    simp only [usersLoop] at h
    by_cases hig : b.checkIgnoreList u.userName
    · rw [if_pos hig] at h
      obtain ⟨delta, h1, h2, h3⟩ := ih stale items em fuel items2 st2 em2 log h
      refine ⟨delta, h1, ?_, h3⟩
      rw [h2]
      simp [List.filter_cons, hig]
    · rw [if_neg hig] at h
      simp only [Bool.not_eq_true] at hig
      cases hp : processUser b conn j account mp u stale em fuel with
      | none => rw [hp] at h; cases h
      | some pr =>
        rw [hp] at h
        obtain ⟨r, plog⟩ := pr
        cases r with
        | error e => dsimp only at h; cases h
        | ok t2 =>
          obtain ⟨item, stale2, em2x⟩ := t2
          dsimp only at h
          cases hu : usersLoop b conn j account mp rest stale2 (items ++ [item]) em2x fuel with
          | none => rw [hu] at h; cases h
          | some pr2 =>
            rw [hu] at h
            obtain ⟨r2, log2⟩ := pr2
            dsimp only at h
            cases h
            obtain ⟨delta, h1, h2, h3⟩ :=
              ih stale2 (items ++ [item]) em2x fuel items2 st2 em2 log2 hu
            have hshape := processUser_shape b conn j account mp u stale em fuel
              item stale2 em2x plog hp
            refine ⟨item :: delta, ?_, ?_, ?_⟩
            · rw [h1]; simp
            · simp only [List.map_cons, h2, List.filter_cons, hig]
              simp [hshape.2.2.2]
            · intro it hit
              rcases List.mem_cons.mp hit with rfl | hmem
              · exact ⟨hshape.1, hshape.2.1, hshape.2.2.1⟩
              · exact h3 it hmem

theorem names_filter_ign (b : IamBackend) (delta : List IamItem) (users : List IamUser)
    (h : delta.map IamItem.name =
      (users.filter fun u => !b.checkIgnoreList u.userName).map IamUser.userName) :
    ∀ it ∈ delta, b.checkIgnoreList it.name = false := by
  intro it hit
  have hm : it.name ∈ delta.map IamItem.name := List.mem_map_of_mem _ hit
  rw [h] at hm
  obtain ⟨u, hu, hname⟩ := List.mem_map.mp hm
  obtain ⟨-, hp⟩ := List.mem_filter.mp hu
  rw [← hname]
  simpa using hp

theorem accountsLoop_items (b : IamBackend) (j : Nat → Nat) :
    ∀ (accounts : List String) (stale : Option Json) (items : List IamItem)
      (em : ExcMap) (fuel : Nat) (items2 : List IamItem) (em2 : ExcMap) (log : List CallTag),
    accountsLoop b j accounts stale items em fuel = some (.ok (items2, em2), log) →
    ∀ it ∈ items2, it ∈ items ∨ b.checkIgnoreList it.name = false := by
  intro accounts
  induction accounts with
  | nil =>
    intro stale items em fuel items2 em2 log h
    simp only [accountsLoop] at h
    cases h
    intro it hit
    exact Or.inl hit
  | cons a rest ih =>
    intro stale items em fuel items2 em2 log h
    simp only [accountsLoop] at h
    cases hcp : connectPhase b j a fuel with
    | none => rw [hcp] at h; cases h
    | some pr =>
      rw [hcp] at h
      obtain ⟨r, clog⟩ := pr
      cases r with
      | error e =>
        dsimp only at h
        cases har : accountsLoop b j rest stale items
            (recordException ⟨"iamuser", a, "universal", none⟩
              (.botoConnectionIssue (pyStr e)) em) fuel with
        | none => rw [har] at h; cases h
        | some pr2 =>
          rw [har] at h
          obtain ⟨r2, log2⟩ := pr2
          dsimp only at h
          cases h
          exact ih stale items _ fuel items2 em2 log2 har
      | ok t3 =>
        obtain ⟨conn, mp, users⟩ := t3
        dsimp only at h
        cases hul : usersLoop b conn j a mp users stale items em fuel with
        | none => rw [hul] at h; cases h
        | some pr2 =>
          rw [hul] at h
          obtain ⟨r2, ulog⟩ := pr2
          cases r2 with
          | error e => dsimp only at h; cases h
          | ok t4 =>
            obtain ⟨items1, stale1, em1⟩ := t4
            dsimp only at h
            cases har : accountsLoop b j rest stale1 items1 em1 fuel with
            | none => rw [har] at h; cases h
            | some pr3 =>
              rw [har] at h
              obtain ⟨r3, log3⟩ := pr3
              dsimp only at h
              cases h
              intro it hit
              rcases ih stale1 items1 em1 fuel items2 em2 log3 har it hit with hin | hfalse
              · obtain ⟨delta, h1, h2, -⟩ :=
                  usersLoop_emits b conn j a mp users stale items em fuel
                    items1 stale1 em1 ulog hul
                subst h1
                rcases List.mem_append.mp hin with hold | hdelta
                · exact Or.inl hold
                · exact Or.inr (names_filter_ign b delta users h2 it hdelta)
              · exact Or.inr hfalse

/-- C6: ignore-list short-circuit.  In any run of `IAMUser.slurp`, a
resource identity on the ignore list is the target of zero detail
sub-fetch calls (no entry of the issued-call log targets it) and no
`ChangeItem` carrying it appears in the returned item list. -/
theorem ignored_resource_no_detail_calls (b : IamBackend) (accounts : List String)
    (j : Nat → Nat) (fuel : Nat) (r : Except PyExc (List IamItem × ExcMap))
    (log : List CallTag) (h : slurpIamUser b accounts j fuel = some (r, log))
    (uname : String) (hig : b.checkIgnoreList uname = true) :
    (∀ t ∈ log, CallTag.target t ≠ some uname) ∧
    (∀ items em, r = .ok (items, em) → ∀ it ∈ items, it.name ≠ uname) := by
  rw [slurpIamUser] at h
  constructor
  · intro t ht heq
    have hl := accountsLoop_log b j accounts none [] [] fuel t
      (by rw [h]; exact ht) uname heq
    rw [hig] at hl
    cases hl
  · intro items em hr it hit hn
    subst hr
    rcases accountsLoop_items b j accounts none [] [] fuel items em log h it hit with
      hmem | hfalse
    · cases hmem
    · rw [hn, hig] at hfalse
      cases hfalse

/-- Witness for C6 on a concrete run: the log of the run that processes
`good` and skips the ignored `evil` contains no call targeting `evil`
(instanced at the head tag), and the emitted item does not carry it. -/
theorem ignored_resource_no_detail_calls_witness :
    CallTag.target (CallTag.getAllUsers none) ≠ some "evil" ∧
    (c3ExpectedItem "acct" [] ⟨"good", "arn:good", []⟩).name ≠ "evil" := by
  have h := ignored_resource_no_detail_calls c6Backend ["acct"] jZero 2
    (.ok ([c3ExpectedItem "acct" [] ⟨"good", "arn:good", []⟩], []))
    [CallTag.getAllUsers none, CallTag.getAllUserPolicies "good" none,
     CallTag.getAllAccessKeys "good" none, CallTag.getAllMfaDevices "good" none,
     CallTag.getLoginProfiles "good", CallTag.getAllSigningCerts "good" none]
    rfl "evil" rfl
  exact ⟨h.1 (CallTag.getAllUsers none) (List.Mem.head _),
    h.2 _ _ rfl _ (List.Mem.head _)⟩

/-! ### Identity uniqueness -/

/-- C8, counterexample: the watcher performs no deduplication, so a
backend whose listing returns the user name `bob` twice makes
`IAMUser.slurp` emit two `ChangeItems` with the same identity tuple
`('iamuser', 'universal', 'acct', 'bob')` in one scan's output,
contradicting the claimed uniqueness. -/
theorem duplicate_listing_duplicate_identity :
    (slurpIamUser c8Backend ["acct"] jZero 2).map Prod.fst =
      some (.ok ([c3ExpectedItem "acct" [] ⟨"bob", "arn:bob", []⟩,
                  c3ExpectedItem "acct" [] ⟨"bob", "arn:bob", []⟩], [])) ∧
    ¬ identitiesUnique [c3ExpectedItem "acct" [] ⟨"bob", "arn:bob", []⟩,
                        c3ExpectedItem "acct" [] ⟨"bob", "arn:bob", []⟩] := by
  constructor
  · rfl
  · intro h
    exact (List.pairwise_cons.mp h).1 _ (List.Mem.head _) rfl

theorem accountsLoop_unique (b : IamBackend) (j : Nat → Nat) (fuel : Nat) :
    ∀ (accounts : List String) (stale : Option Json) (items : List IamItem) (em : ExcMap)
      (items2 : List IamItem) (em2 : ExcMap) (log : List CallTag),
    accounts.Nodup →
    (∀ a ∈ accounts, ∀ conn mp users ulog,
      connectPhase b j a fuel = some (.ok (conn, mp, users), ulog) →
      (users.map IamUser.userName).Nodup) →
    identitiesUnique items →
    (∀ it ∈ items, it.account ∉ accounts) →
    accountsLoop b j accounts stale items em fuel = some (.ok (items2, em2), log) →
    identitiesUnique items2 := by
  intro accounts
  induction accounts with
  | nil =>
    intro stale items em items2 em2 log _ _ hun _ h
    simp only [accountsLoop] at h
    cases h
    exact hun
  | cons a rest ih =>
    intro stale items em items2 em2 log hacc husers hun hnotin h
    simp only [accountsLoop] at h
    cases hcp : connectPhase b j a fuel with
    | none => rw [hcp] at h; cases h
    | some pr =>
      rw [hcp] at h
      obtain ⟨r, clog⟩ := pr
      cases r with
      | error e =>
        dsimp only at h
        cases har : accountsLoop b j rest stale items
            (recordException ⟨"iamuser", a, "universal", none⟩
              (.botoConnectionIssue (pyStr e)) em) fuel with
        | none => rw [har] at h; cases h
        | some pr2 =>
          rw [har] at h
          obtain ⟨r2, log2⟩ := pr2
          dsimp only at h
          cases h
          exact ih stale items _ items2 em2 log2 (List.Nodup.of_cons hacc)
            (fun a2 ha2 => husers a2 (List.mem_cons_of_mem _ ha2)) hun
            (fun it hit hin => hnotin it hit (List.mem_cons_of_mem _ hin)) har
      | ok t3 =>
        obtain ⟨conn, mp, users⟩ := t3
        dsimp only at h
        cases hul : usersLoop b conn j a mp users stale items em fuel with
        | none => rw [hul] at h; cases h
        | some pr2 =>
          rw [hul] at h
          obtain ⟨r2, ulog⟩ := pr2
          cases r2 with
          | error e => dsimp only at h; cases h
          | ok t4 =>
            obtain ⟨items1, stale1, em1⟩ := t4
            dsimp only at h
            cases har : accountsLoop b j rest stale1 items1 em1 fuel with
            | none => rw [har] at h; cases h
            | some pr3 =>
              rw [har] at h
              obtain ⟨r3, log3⟩ := pr3
              dsimp only at h
              cases h
              obtain ⟨delta, h1, h2, h3⟩ := usersLoop_emits b conn j a mp users stale
                items em fuel items1 stale1 em1 ulog hul
              have hdnodup : (delta.map IamItem.name).Nodup := by
                rw [h2]
                have hnd := husers a (List.Mem.head _) conn mp users clog hcp
                have hsub : ((users.filter fun u => !b.checkIgnoreList u.userName).map
                    IamUser.userName).Sublist (users.map IamUser.userName) :=
                  List.Sublist.map _ (List.filter_sublist _)
                exact List.Nodup.sublist hsub hnd
              have hdelta_pairwise : identitiesUnique delta := by
                have hnames := List.pairwise_map.mp hdnodup
                exact hnames.imp (fun hne hkey => hne (congrArg (fun p => p.2.2.2) hkey))
              have hitems1 : identitiesUnique items1 := by
                subst h1
                rw [identitiesUnique, List.pairwise_append]
                refine ⟨hun, hdelta_pairwise, ?_⟩
                intro x hx y hy
                obtain ⟨-, -, hya⟩ := h3 y hy
                intro hkey
                have hxacc := hnotin x hx
                have hxy : x.account = y.account := congrArg (fun p => p.2.2.1) hkey
                rw [hxy, hya] at hxacc
                exact hxacc (List.Mem.head _)
              have hitems1_acc : ∀ it ∈ items1, it.account ∉ rest := by
                subst h1
                intro it hit
                rcases List.mem_append.mp hit with hold | hdel
                · intro hin
                  exact hnotin it hold (List.mem_cons_of_mem _ hin)
                · obtain ⟨-, -, hacc2⟩ := h3 it hdel
                  rw [hacc2]
                  exact (List.nodup_cons.mp hacc).1
              exact ih stale1 items1 em1 items2 em2 log3 (List.Nodup.of_cons hacc)
                (fun a2 ha2 => husers a2 (List.mem_cons_of_mem _ ha2)) hitems1 hitems1_acc har

/-- C8, amended: the identity tuples of one scan's output are pairwise
distinct provided the configured accounts are distinct and, for each
account, the user names returned by the (paginated) listing are
distinct.  The watcher itself performs no deduplication: with a
duplicated listing the duplicate survives into the output (see the
counterexample). -/
theorem identity_unique_of_distinct_listing (b : IamBackend) (accounts : List String)
    (j : Nat → Nat) (fuel : Nat) (items : List IamItem) (em : ExcMap) (log : List CallTag)
    (hacc : accounts.Nodup)
    (husers : ∀ a ∈ accounts, ∀ conn mp users ulog,
      connectPhase b j a fuel = some (.ok (conn, mp, users), ulog) →
      (users.map IamUser.userName).Nodup)
    (h : slurpIamUser b accounts j fuel = some (.ok (items, em), log)) :
    identitiesUnique items := by
  rw [slurpIamUser] at h
  exact accountsLoop_unique b j fuel accounts none [] [] items em log hacc husers
    List.Pairwise.nil (fun it hit => (List.not_mem_nil it hit).elim) h

/-- Witness for the amended C8: a run over one account listing the two
distinct users `alice` and `bob` yields items with distinct identity
tuples. -/
theorem identity_unique_of_distinct_listing_witness :
    identitiesUnique [c3ExpectedItem "acct" [] ⟨"alice", "arn:alice", []⟩,
                      c3ExpectedItem "acct" [] ⟨"bob", "arn:bob", []⟩] :=
  identity_unique_of_distinct_listing c8DistinctBackend ["acct"] jZero 2
    [c3ExpectedItem "acct" [] ⟨"alice", "arn:alice", []⟩,
     c3ExpectedItem "acct" [] ⟨"bob", "arn:bob", []⟩] []
    [CallTag.getAllUsers none,
     CallTag.getAllUserPolicies "alice" none, CallTag.getAllAccessKeys "alice" none,
     CallTag.getAllMfaDevices "alice" none, CallTag.getLoginProfiles "alice",
     CallTag.getAllSigningCerts "alice" none,
     CallTag.getAllUserPolicies "bob" none, CallTag.getAllAccessKeys "bob" none,
     CallTag.getAllMfaDevices "bob" none, CallTag.getLoginProfiles "bob",
     CallTag.getAllSigningCerts "bob" none]
    (by decide)
    (fun a ha conn mp users ulog hcp => by
      simp only [List.mem_singleton] at ha
      subst ha
      cases hcp
      decide)
    rfl

/-! ### The certificate body never reaches an emitted item -/

theorem rateLimitedGo_ok_attempt {α : Type} (a : Nat → CallOutcome α) (j : Nat → Nat) :
    ∀ (n k : Nat) (x : α), (rateLimitedGo a j k n).1 = .ok x → ∃ i, a i = .ok x := by
  intro n
  induction n with
  | zero => intro k x h; cases h
  | succ m ih =>
    intro k x h
    simp only [rateLimitedGo] at h
    cases ha : a k with
    | ok y => rw [ha] at h; dsimp only at h; cases h; exact ⟨k, ha⟩
    | fail e => rw [ha] at h; cases h
    | throttle => rw [ha] at h; dsimp only at h; exact ih (k + 1) x h

theorem alook_eq_none_of_not_mem {α : Type} : ∀ (m : List (String × α)) (k : String),
    k ∉ m.map Prod.fst → alook m k = none := by
  intro m
  induction m with
  | nil => intro k _; rfl
  | cons p rest ih =>
    intro k hk
    obtain ⟨k', v⟩ := p
    simp only [List.map_cons, List.mem_cons] at hk
    push_neg at hk
    simp only [alook]
    rw [if_neg (fun he => hk.1 he.symm)]
    exact ih k hk.2

theorem alook_eraseKey_self {α : Type} : ∀ (m : List (String × α)) (k : String),
    (m.map Prod.fst).Nodup → alook (eraseKey m k) k = none := by
  intro m
  induction m with
  | nil => intro k _; rfl
  | cons p rest ih =>
    intro k hnd
    obtain ⟨k', v⟩ := p
    simp only [List.map_cons, List.nodup_cons] at hnd
    simp only [eraseKey]
    by_cases hk : k' = k
    · rw [if_pos hk]
      subst hk
      exact alook_eq_none_of_not_mem rest k' hnd.1
    · rw [if_neg hk]
      simp only [alook]
      rw [if_neg hk]
      exact ih k hnd.2

theorem mem_upsert {α : Type} : ∀ (d : List (String × α)) (k : String) (v : α)
    (p : String × α), p ∈ upsert d k v → p ∈ d ∨ p = (k, v) := by
  intro d
  induction d with
  | nil =>
    intro k v p hp
    simp only [upsert, List.mem_singleton] at hp
    exact Or.inr hp
  | cons q rest ih =>
    intro k v p hp
    obtain ⟨k', v'⟩ := q
    simp only [upsert] at hp
    by_cases hk : k' = k
    · rw [if_pos hk] at hp
      rcases List.mem_cons.mp hp with rfl | hm
      · exact Or.inr rfl
      · exact Or.inl (List.mem_cons_of_mem _ hm)
    · rw [if_neg hk] at hp
      rcases List.mem_cons.mp hp with rfl | hm
      · exact Or.inl (List.Mem.head _)
      · rcases ih k v p hm with h1 | h2
        · exact Or.inl (List.mem_cons_of_mem _ h1)
        · exact Or.inr h2

theorem certsFetchLoop_nodup (conn : IamConn) (j : Nat → Nat) (maxA : Nat)
    (uname : String) (hc : connCertsNodup conn) :
    ∀ (fuel : Nat) (marker : Option String) (acc : List SigningCert)
      (certs : List SigningCert) (log : List CallTag),
    (∀ c ∈ acc, (c.asDict.map Prod.fst).Nodup) →
    certsFetchLoop conn j maxA uname marker acc fuel = some (.ok certs, log) →
    ∀ c ∈ certs, (c.asDict.map Prod.fst).Nodup := by
  intro fuel
  induction fuel with
  | zero => intro marker acc certs log _ h; cases h
  | succ n ih =>
    intro marker acc certs log hacc h
    simp only [certsFetchLoop] at h
    cases hrc : (rateLimitedCall (conn.getAllSigningCerts uname marker) j maxA).1 with
    | error e => rw [hrc] at h; cases h
    | ok resp =>
      rw [hrc] at h
      dsimp only at h
      have hresp : ∀ c ∈ resp.certificates, (c.asDict.map Prod.fst).Nodup := by
        obtain ⟨kk, hkk⟩ := rateLimitedGo_ok_attempt
          (conn.getAllSigningCerts uname marker) j maxA 0 resp hrc
        exact hc uname marker kk resp hkk
      have hacc2 : ∀ c ∈ acc ++ resp.certificates, (c.asDict.map Prod.fst).Nodup := by
        intro c hcm
        rcases List.mem_append.mp hcm with h1 | h2
        · exact hacc c h1
        · exact hresp c h2
      by_cases htr : resp.isTruncated = "true"
      · rw [if_pos htr] at h
        cases hrec : certsFetchLoop conn j maxA uname resp.marker
            (acc ++ resp.certificates) n with
        | none => rw [hrec] at h; cases h
        | some pr =>
          rw [hrec] at h
          obtain ⟨r2, log2⟩ := pr
          dsimp only at h
          cases h
          exact ih resp.marker (acc ++ resp.certificates) certs log2 hacc2 hrec
      · rw [if_neg htr] at h
        cases h
        exact hacc2

theorem certsLoop_noBody : ∀ (certs : List SigningCert) (d d2 : List (String × Json)),
    (∀ c ∈ certs, (c.asDict.map Prod.fst).Nodup) →
    (∀ p ∈ d, ∀ fs, p.2 = Json.obj fs → alook fs "certificate_body" = none) →
    certsLoop certs d = .ok d2 →
    ∀ p ∈ d2, ∀ fs, p.2 = Json.obj fs → alook fs "certificate_body" = none := by
  intro certs
  induction certs with
  | nil =>
    intro d d2 _ hd h
    cases h
    exact hd
  | cons c rest ih =>
    intro d d2 hcn hd h
    simp only [certsLoop] at h
    cases hdk : delKey c.asDict "certificate_body" with
    | error e => rw [hdk] at h; cases h
    | ok cd =>
      rw [hdk] at h
      dsimp only at h
      have hcd : alook cd "certificate_body" = none := by
        simp only [delKey] at hdk
        cases hal : alook c.asDict "certificate_body" with
        | none => rw [hal] at hdk; cases hdk
        | some v =>
          rw [hal] at hdk
          dsimp only at hdk
          cases hdk
          exact alook_eraseKey_self c.asDict "certificate_body" (hcn c (List.Mem.head _))
      refine ih (upsert d c.certificateId (Json.obj cd)) d2
        (fun c2 hc2 => hcn c2 (List.mem_cons_of_mem _ hc2)) ?_ h
      intro p hp fs hfs
      rcases mem_upsert d c.certificateId (Json.obj cd) p hp with h1 | h2
      · exact hd p h1 fs hfs
      · rw [h2] at hfs
        dsimp only at hfs
        cases hfs
        exact hcd

theorem processUser_noCertBody (b : IamBackend) (conn : IamConn) (j : Nat → Nat)
    (account : String) (mp : List (String × List Json)) (user : IamUser)
    (stale : Option Json) (em : ExcMap) (fuel : Nat) (item : IamItem)
    (st2 : Option Json) (em2 : ExcMap) (log : List CallTag) (hc : connCertsNodup conn)
    (h : processUser b conn j account mp user stale em fuel = some (.ok (item, st2, em2), log)) :
    noCertBody item.config := by
  simp only [processUser] at h
  cases hpn : policyNamesForUser conn j b.maxAttempts user.userName fuel with
  | none => rw [hpn] at h; cases h
  | some pr1 =>
    rw [hpn] at h
    obtain ⟨r1, log1⟩ := pr1
    cases r1 with
    | error e => dsimp only at h; cases h
    | ok policyNames =>
      dsimp only at h
      cases hup : userPoliciesLoop b conn j account user.userName policyNames [] stale em with
      | mk r2 log2 =>
        rw [hup] at h
        cases r2 with
        | error e => dsimp only at h; cases h
        | ok t2 =>
          obtain ⟨upol, stale2, em2x⟩ := t2
          dsimp only at h
          cases hak : accessKeysForUser conn j b.maxAttempts user.userName fuel with
          | none => rw [hak] at h; cases h
          | some pr3 =>
            rw [hak] at h
            obtain ⟨r3, log3⟩ := pr3
            cases r3 with
            | error e => dsimp only at h; cases h
            | ok keys =>
              dsimp only at h
              cases hmf : mfasForUser conn j b.maxAttempts user.userName fuel with
              | none => rw [hmf] at h; cases h
              | some pr4 =>
                rw [hmf] at h
                obtain ⟨r4, log4⟩ := pr4
                cases r4 with
                | error e => dsimp only at h; cases h
                | ok mfas =>
                  dsimp only at h
                  cases hcf : certificatesForUser conn j b.maxAttempts user.userName fuel with
                  | none => rw [hcf] at h; cases h
                  | some pr6 =>
                    rw [hcf] at h
                    obtain ⟨r6, log6⟩ := pr6
                    cases r6 with
                    | error e => dsimp only at h; cases h
                    | ok certs =>
                      dsimp only at h
                      have hnodup : ∀ c ∈ certs, (c.asDict.map Prod.fst).Nodup :=
                        certsFetchLoop_nodup conn j b.maxAttempts user.userName hc
                          fuel none [] certs log6 (fun c hcm => (List.not_mem_nil c hcm).elim) hcf
                      cases hcl : certsLoop certs [] with
                      | error e => rw [hcl] at h; cases h
                      | ok certsD =>
                        rw [hcl] at h
                        dsimp only at h
                        have hbody := certsLoop_noBody certs [] certsD hnodup
                          (fun p hp => (List.not_mem_nil p hp).elim) hcl
                        cases hlf : (rateLimitedCall (conn.getLoginProfiles user.userName)
                            j b.maxAttempts).1 with
                        | ok lresp =>
                          rw [hlf] at h
                          dsimp only at h
                          cases hmp : alook mp user.arn with
                          | some l =>
                            rw [hmp] at h
                            dsimp only at h
                            cases h
                            intro d hd
                            have hd2 : some (Json.obj certsD) = some (Json.obj d) := hd
                            cases hd2
                            exact hbody
                          | none =>
                            rw [hmp] at h
                            dsimp only at h
                            cases h
                            intro d hd
                            have hd2 : some (Json.obj certsD) = some (Json.obj d) := hd
                            cases hd2
                            exact hbody
                        | error e =>
                          rw [hlf] at h
                          dsimp only at h
                          cases hmp : alook mp user.arn with
                          | some l =>
                            rw [hmp] at h
                            dsimp only at h
                            cases h
                            intro d hd
                            have hd2 : some (Json.obj certsD) = some (Json.obj d) := hd
                            cases hd2
                            exact hbody
                          | none =>
                            rw [hmp] at h
                            dsimp only at h
                            cases h
                            intro d hd
                            have hd2 : some (Json.obj certsD) = some (Json.obj d) := hd
                            cases hd2
                            exact hbody

theorem connectPhase_conn (b : IamBackend) (j : Nat → Nat) (account : String)
    (fuel : Nat) (conn : IamConn) (mp : List (String × List Json))
    (users : List IamUser) (log : List CallTag)
    (h : connectPhase b j account fuel = some (.ok (conn, mp, users), log)) :
    b.connectIam account = .ok conn := by
  simp only [connectPhase] at h
  cases hb3 : b.connectBoto3 account with
  | error e => rw [hb3] at h; cases h
  | ok policies =>
    rw [hb3] at h
    dsimp only at h
    cases hamp : allManagedPolicies policies with
    | error e => rw [hamp] at h; cases h
    | ok mp2 =>
      rw [hamp] at h
      dsimp only at h
      cases hci : b.connectIam account with
      | error e => rw [hci] at h; cases h
      | ok conn2 =>
        rw [hci] at h
        dsimp only at h
        cases hgu : getAllUsersLoop conn2 j b.maxAttempts none [] fuel with
        | none => rw [hgu] at h; cases h
        | some pr =>
          rw [hgu] at h
          obtain ⟨r, log2⟩ := pr
          cases r with
          | error e => dsimp only at h; cases h
          | ok users2 =>
            dsimp only at h
            cases h
            rfl

theorem usersLoop_noCertBody (b : IamBackend) (conn : IamConn) (j : Nat → Nat)
    (account : String) (mp : List (String × List Json)) (hc : connCertsNodup conn) :
    ∀ (users : List IamUser) (stale : Option Json) (items : List IamItem) (em : ExcMap)
      (fuel : Nat) (items2 : List IamItem) (st2 : Option Json) (em2 : ExcMap)
      (log : List CallTag),
    (∀ it ∈ items, noCertBody it.config) →
    usersLoop b conn j account mp users stale items em fuel =
      some (.ok (items2, st2, em2), log) →
    ∀ it ∈ items2, noCertBody it.config := by
  intro users
  induction users with
  | nil =>
    intro stale items em fuel items2 st2 em2 log hi h
    simp only [usersLoop] at h
    cases h
    exact hi
  | cons u rest ih =>
    intro stale items em fuel items2 st2 em2 log hi h
    simp only [usersLoop] at h
    by_cases hig : b.checkIgnoreList u.userName
    · rw [if_pos hig] at h
      exact ih stale items em fuel items2 st2 em2 log hi h
    · rw [if_neg hig] at h
      cases hp : processUser b conn j account mp u stale em fuel with
      | none => rw [hp] at h; cases h
      | some pr =>
        rw [hp] at h
        obtain ⟨r, plog⟩ := pr
        cases r with
        | error e => dsimp only at h; cases h
        | ok t2 =>
          obtain ⟨item, stale2, em2x⟩ := t2
          dsimp only at h
          cases hu : usersLoop b conn j account mp rest stale2 (items ++ [item]) em2x fuel with
          | none => rw [hu] at h; cases h
          | some pr2 =>
            rw [hu] at h
            obtain ⟨r2, log2⟩ := pr2
            dsimp only at h
            cases h
            have hitem := processUser_noCertBody b conn j account mp u stale em fuel
              item stale2 em2x plog hc hp
            refine ih stale2 (items ++ [item]) em2x fuel items2 st2 em2 log2 ?_ hu
            intro it hit
            rcases List.mem_append.mp hit with h1 | h2
            · exact hi it h1
            · simp only [List.mem_singleton] at h2
              subst h2
              exact hitem

theorem accountsLoop_noCertBody (b : IamBackend) (j : Nat → Nat)
    (hb : backendCertsNodup b) :
    ∀ (accounts : List String) (stale : Option Json) (items : List IamItem) (em : ExcMap)
      (fuel : Nat) (items2 : List IamItem) (em2 : ExcMap) (log : List CallTag),
    (∀ it ∈ items, noCertBody it.config) →
    accountsLoop b j accounts stale items em fuel = some (.ok (items2, em2), log) →
    ∀ it ∈ items2, noCertBody it.config := by
  intro accounts
  induction accounts with
  | nil =>
    intro stale items em fuel items2 em2 log hi h
    simp only [accountsLoop] at h
    cases h
    exact hi
  | cons a rest ih =>
    intro stale items em fuel items2 em2 log hi h
    simp only [accountsLoop] at h
    cases hcp : connectPhase b j a fuel with
    | none => rw [hcp] at h; cases h
    | some pr =>
      rw [hcp] at h
      obtain ⟨r, clog⟩ := pr
      cases r with
      | error e =>
        dsimp only at h
        cases har : accountsLoop b j rest stale items
            (recordException ⟨"iamuser", a, "universal", none⟩
              (.botoConnectionIssue (pyStr e)) em) fuel with
        | none => rw [har] at h; cases h
        | some pr2 =>
          rw [har] at h
          obtain ⟨r2, log2⟩ := pr2
          dsimp only at h
          cases h
          exact ih stale items _ fuel items2 em2 log2 hi har
      | ok t3 =>
        obtain ⟨conn, mp, users⟩ := t3
        dsimp only at h
        cases hul : usersLoop b conn j a mp users stale items em fuel with
        | none => rw [hul] at h; cases h
        | some pr2 =>
          rw [hul] at h
          obtain ⟨r2, ulog⟩ := pr2
          cases r2 with
          | error e => dsimp only at h; cases h
          | ok t4 =>
            obtain ⟨items1, stale1, em1⟩ := t4
            dsimp only at h
            cases har : accountsLoop b j rest stale1 items1 em1 fuel with
            | none => rw [har] at h; cases h
            | some pr3 =>
              rw [har] at h
              obtain ⟨r3, log3⟩ := pr3
              dsimp only at h
              cases h
              have hc : connCertsNodup conn :=
                hb a conn (connectPhase_conn b j a fuel conn mp users clog hcp)
              have hitems1 : ∀ it ∈ items1, noCertBody it.config :=
                usersLoop_noCertBody b conn j a mp hc users stale items em fuel
                  items1 stale1 em1 ulog hi hul
              exact ih stale1 items1 em1 fuel items2 em2 log3 hitems1 har

/-- C10: raw certificate material never reaches a `ChangeItem`.  For
every run of `IAMUser.slurp` over a backend whose certificate records
are well-formed dicts (duplicate-free keys), every emitted item's
`signingcerts` mapping consists of records without the
`certificate_body` key: the body is deleted before the record is
stored. -/
theorem signing_certs_body_removed (b : IamBackend) (accounts : List String)
    (j : Nat → Nat) (fuel : Nat) (items : List IamItem) (em : ExcMap)
    (log : List CallTag) (hb : backendCertsNodup b)
    (h : slurpIamUser b accounts j fuel = some (.ok (items, em), log)) :
    ∀ it ∈ items, noCertBody it.config := by
  rw [slurpIamUser] at h
  exact accountsLoop_noCertBody b j hb accounts none [] [] fuel items em log
    (fun it hit => (List.not_mem_nil it hit).elim) h

/-- Witness for C10: a run over one user with one signing certificate
(carrying a `certificate_body` field) emits a configuration whose
`signingcerts` entry has the body removed. -/
theorem signing_certs_body_removed_witness :
    noCertBody (c7Config ⟨"carol", "arn:carol", []⟩ [] []
      [⟨"certid", Json.str "PEM", [("status", Json.str "Active")]⟩]) := by
  have h := signing_certs_body_removed
    (c7Backend ⟨"carol", "arn:carol", []⟩ [] []
      [⟨"certid", Json.str "PEM", [("status", Json.str "Active")]⟩])
    ["acct"] jZero 2
    [⟨"iamuser", "universal", "acct", "carol",
      c7Config ⟨"carol", "arn:carol", []⟩ [] []
        [⟨"certid", Json.str "PEM", [("status", Json.str "Active")]⟩]⟩]
    [] [CallTag.getAllUsers none, CallTag.getAllUserPolicies "carol" none,
        CallTag.getAllAccessKeys "carol" none, CallTag.getAllMfaDevices "carol" none,
        CallTag.getLoginProfiles "carol", CallTag.getAllSigningCerts "carol" none]
    (fun a conn hci => by
      have hci2 : Except.ok (c7Conn ⟨"carol", "arn:carol", []⟩ [] []
          [⟨"certid", Json.str "PEM", [("status", Json.str "Active")]⟩]) =
          Except.ok conn := hci
      cases hci2
      intro u2 m k resp hr
      have hr2 : CallOutcome.ok (⟨[mkCert ⟨"certid", Json.str "PEM",
          [("status", Json.str "Active")]⟩], "false", none⟩ : CertsResponse) =
          CallOutcome.ok resp := hr
      cases hr2
      decide)
    rfl
  exact h _ (List.Mem.head _)

/-! ### The per-user JSON decode handler -/

/-- C1: against a backend whose first (and only) policy document fails
JSON decoding, the recorded `InvalidAWSJSON` handler falls through to
`dict(policydict)` with `policydict` never assigned, and
`IAMUser.slurp` raises `UnboundLocalError` instead of returning its
`(item_list, exception_map)` pair: the decode failure escapes
`slurp()`. -/
theorem json_decode_failure_escapes_slurp :
    slurpIamUser badJsonBackend ["acct1"] jZero 2 =
      some (.error (.unboundLocalError "policydict"),
        [CallTag.getAllUsers none, CallTag.getAllUserPolicies "alice" none,
         CallTag.getUserPolicy "alice" "p1"]) := rfl

/-- C2: when a later policy document is malformed, the resource's item
is emitted and exactly one exception is recorded at the resource's
location key, but the malformed field is not omitted: the entry for
`p2` carries the stale document decoded for `p1`. -/
theorem malformed_policy_field_not_omitted :
    slurpIamUser staleJsonBackend ["acct1"] jZero 2 =
      some (.ok ([staleJsonItem],
          [(⟨"iamuser", "acct1", "universal", some "alice"⟩, .invalidAWSJSON "bad")]),
        [CallTag.getAllUsers none, CallTag.getAllUserPolicies "alice" none,
         CallTag.getUserPolicy "alice" "p1", CallTag.getUserPolicy "alice" "p2",
         CallTag.getAllAccessKeys "alice" none, CallTag.getAllMfaDevices "alice" none,
         CallTag.getLoginProfiles "alice", CallTag.getAllSigningCerts "alice" none]) ∧
    alook staleJsonItem.config "userpolicies" =
      some (Json.obj [("p1", staleDoc), ("p2", staleDoc)]) :=
  ⟨rfl, rfl⟩

end SecurityMonkey
